import Mathlib

/-!
Shallow embedding of `src/main.rs`, a single-threaded ZeroMQ ROUTER message
broker.  The broker keeps four tables (clients, topics, in-flight tasks,
retry queue) and an event loop that classifies each incoming 4-frame message
as ping / register / worker reply / client request.

Modelling conventions:
* `HashMap<String, _>` becomes an association list `List (String × _)`;
  insertion appends, lookup and removal act on the first matching key.
  No claim below depends on hash-iteration order.
* `SystemTime` becomes a `Nat` second counter; the clock is assumed monotone
  (`elapsed().unwrap()` never fails), `elapsed` is truncated subtraction.
* The socket is an oracle: a list of booleans giving the outcome of each
  successive logical 3-frame send (exhausted oracle means delivered).  Every
  attempted send and every diagnostic line is recorded in an event log.
* Rust panics (`unwrap` on `None`, indexing a missing `HashMap` key) become
  `Except.error`; an error aborts the event-loop iteration, like a panic.
* `task.retry` is a `u8`; the increment wraps modulo 256 (release semantics).
-/

/-- First value stored under a key (`HashMap::get`). -/
def mapGet {α : Type} : List (String × α) → String → Option α
  | [], _ => none
  | (k, v) :: rest, key => if k = key then some v else mapGet rest key

/-- Replace the value stored under a key, first occurrence (`HashMap` update in place). -/
def mapSet {α : Type} : List (String × α) → String → α → List (String × α)
  | [], _, _ => []
  | (k, v) :: rest, key, nv =>
    if k = key then (k, nv) :: rest else (k, v) :: mapSet rest key nv

/-- Drop the entry stored under a key, first occurrence (`HashMap::remove`). -/
def mapRemove {α : Type} : List (String × α) → String → List (String × α)
  | [], _ => []
  | (k, v) :: rest, key => if k = key then rest else (k, v) :: mapRemove rest key

/-- Index search, `iter().position(|y| y == x)` on a vector of strings. -/
def positionOf (x : String) : List String → Option Nat
  | [] => none
  | y :: ys => if y = x then some 0 else (positionOf x ys).map (· + 1)

/-- Remove the first occurrence of `x` (the `position` + `Vec::remove` idiom). -/
def removeFirst (x : String) : List String → List String
  | [] => []
  | y :: ys => if y = x then ys else y :: removeFirst x ys

/-- Number of occurrences of `x` in a list of strings. -/
def countOcc (x : String) : List String → Nat
  | [] => 0
  | y :: ys => (if y = x then 1 else 0) + countOcc x ys

/-- Iterate `removeFirst` a given number of times. -/
def eraseOccs (x : String) : Nat → List String → List String
  | 0, l => l
  | n + 1, l => eraseOccs x n (removeFirst x l)

/-- Embeds `struct Client` of the source: identity, worker flag, subscription list. -/
structure Client where
  name : String
  is_worker : Bool
  topics : List String
deriving Repr, DecidableEq

/-- Embeds `Client::new`: the worker flag is fixed here, the subscription list starts empty. -/
def Client.new (name : String) (is_worker : Bool) : Client :=
  { name := name, is_worker := is_worker, topics := [] }

/-- Embeds `struct Topic` of the source: worker list, round-robin cursor, client list. -/
structure Topic where
  name : String
  workers : List String
  next_worker_index : Nat
  clients : List String
deriving Repr, DecidableEq

/-- Embeds `Topic::new`. -/
def Topic.new (name : String) : Topic :=
  { name := name, workers := [], next_worker_index := 0, clients := [] }

/-- Embeds `struct Task` of the source. -/
structure BTask where
  worker_topic : String
  worker_name : Option String
  response_topic : String
  retry : Nat
  payload : String
  date : Nat
  sent : Bool
deriving Repr, DecidableEq

/-- Embeds `Task::new` at creation time `now`. -/
def BTask.new (worker_topic response_topic payload : String) (now : Nat) : BTask :=
  { worker_topic := worker_topic, worker_name := none,
    response_topic := response_topic, retry := 0, payload := payload,
    date := now, sent := false }

/-- Embeds `struct Broker`: the four tables plus the configured timeout. -/
structure Broker where
  timeout_as_secs : Nat
  clients : List (String × Client)
  topics : List (String × Topic)
  tasks : List BTask
  tasks_to_retry : List BTask
deriving Repr, DecidableEq

/-- Observable socket/stdout events of one run. -/
inductive NetEvent where
  /-- an attempted 3-frame send: recipient, payload, delivered flag -/
  | sent (recipient payload : String) (delivered : Bool)
  /-- the no-worker diagnostic line, carrying the stored worker topic -/
  | diag (worker_topic : String)
  /-- the debug summary line `[w workers; c clients; t topics; a tasks, r waiting]` -/
  | debugLine (w c t a r : Nat)
deriving Repr, DecidableEq

/-- The transport: outcomes of future sends plus the event log. -/
structure Net where
  oracle : List Bool
  log : List NetEvent
deriving Repr, DecidableEq

/-- One logical 3-frame non-blocking send; failure of any frame fails the send. -/
def trySend (net : Net) (recipient payload : String) : Bool × Net :=
  let delivered := net.oracle.headD true
  (delivered,
   { oracle := net.oracle.tail,
     log := net.log ++ [NetEvent.sent recipient payload delivered] })

/-- Record the `Cant find a worker at the moment, storing task <topic>` line. -/
def logDiag (net : Net) (worker_topic : String) : Net :=
  { net with log := net.log ++ [NetEvent.diag worker_topic] }

/-- Workers half of `print_debug`'s partition. -/
def workerCount (b : Broker) : Nat :=
  (b.clients.filter (fun p => p.2.is_worker)).length

/-- Clients half of `print_debug`'s partition. -/
def clientCount (b : Broker) : Nat :=
  (b.clients.filter (fun p => !p.2.is_worker)).length

/-- Embeds `Broker::print_debug`: emit the summary line. -/
def print_debug (b : Broker) (net : Net) : Net :=
  { net with log := net.log ++ [NetEvent.debugLine (workerCount b) (clientCount b)
      b.topics.length b.tasks.length b.tasks_to_retry.length] }

/-- Embeds `Broker::get_next_worker_name`: round-robin selection with forward bias. -/
def get_next_worker_name (b : Broker) (topic_name : String) :
    Option String × Broker :=
  match mapGet b.topics topic_name with
  | none => (none, b)
  | some topic =>
    match topic.workers[topic.next_worker_index]? with
    | some worker_name =>
      let t2 := { topic with next_worker_index := topic.next_worker_index + 1 }
      (some worker_name, { b with topics := mapSet b.topics topic_name t2 })
    | none =>
      let t2 := { topic with next_worker_index := 1 }
      (topic.workers[0]?, { b with topics := mapSet b.topics topic_name t2 })

/-- Embeds `Broker::add_client`: upsert the client row, append the subscription,
upsert the topic row, append to its worker or client list by the flag. -/
def add_client (b : Broker) (is_worker : Bool) (identity response_topic : String) :
    Broker :=
  let clients :=
    match mapGet b.clients identity with
    | some c => mapSet b.clients identity ({ c with topics := c.topics ++ [response_topic] })
    | none =>
      b.clients ++ [(identity,
        { Client.new identity is_worker with topics := [response_topic] })]
  let topics :=
    match mapGet b.topics response_topic with
    | some t =>
      mapSet b.topics response_topic
        (if is_worker then { t with workers := t.workers ++ [identity] }
         else { t with clients := t.clients ++ [identity] })
    | none =>
      b.topics ++ [(response_topic,
        (if is_worker then { Topic.new response_topic with workers := [identity] }
         else { Topic.new response_topic with clients := [identity] }))]
  { b with clients := clients, topics := topics }

/-- One step of `remove_worker_from_topics`: unlink `worker_name` from one
topic's worker list; the `position(...).unwrap()` panics when the worker does
not appear in that worker list; a topic name absent from the table is skipped
(`entry(...).and_modify`). -/
def removeWorkerStep (worker_name : String) (acc : Broker) (tname : String) :
    Except String Broker :=
  match mapGet acc.topics tname with
  | none => Except.ok acc
  | some topic =>
    match positionOf worker_name topic.workers with
    | none => Except.error "remove_worker_from_topics: position unwrap on None"
    | some i =>
      let t2 := { topic with workers := topic.workers.eraseIdx i }
      Except.ok ({ acc with topics := mapSet acc.topics tname t2 })

/-- Embeds `Broker::remove_worker_from_topics`: for each topic the worker subscribes to,
unlink it from that topic's worker list. -/
def remove_worker_from_topics (b : Broker) (worker : Client) : Except String Broker :=
  worker.topics.foldlM (removeWorkerStep worker.name) b

/-- Embeds `Broker::remove_worker`: `self.clients[worker_name]` panics on a missing row;
otherwise unlink from topics and drop the client row. -/
def remove_worker (b : Broker) (worker_name : String) : Except String Broker :=
  match mapGet b.clients worker_name with
  | none => Except.error "remove_worker: clients index panic"
  | some worker =>
    match remove_worker_from_topics b worker with
    | Except.error e => Except.error e
    | Except.ok b2 => Except.ok ({ b2 with clients := mapRemove b2.clients worker_name })

/-- Embeds `Broker::send_task`: stamp the task, select a worker, attempt the send,
evict on failure.  Returns the selected worker name (None when no worker). -/
def send_task (b : Broker) (net : Net) (task : BTask) (now : Nat) :
    Except String (Option String × BTask × Broker × Net) :=
  let sel := get_next_worker_name b task.worker_topic
  let task := { task with date := now, retry := (task.retry + 1) % 256,
                          worker_name := sel.1 }
  match sel.1 with
  | none => Except.ok (none, task, sel.2, net)
  | some worker_name =>
    let attempt := trySend net worker_name task.payload
    let task := { task with sent := attempt.1 }
    if task.sent then Except.ok (some worker_name, task, sel.2, attempt.2)
    else
      match remove_worker sel.2 worker_name with
      | Except.error e => Except.error e
      | Except.ok b2 => Except.ok (some worker_name, task, b2, attempt.2)

/-- The `loop` body of `Broker::send_task_and_retry`, with explicit fuel.
Each non-terminal iteration removes the evicted worker's row, so the client
table strictly shrinks; fuel `clients.length + 1` can therefore never run out
(the fuel-exhaustion branch is unreachable from the wrapper below). -/
def send_task_and_retry_go (fuel : Nat) (b : Broker) (net : Net) (task : BTask)
    (now : Nat) : Except String (Broker × Net) :=
  match fuel with
  | 0 => Except.error "unreachable: dispatch loop fuel"
  | fuel + 1 =>
    match send_task b net task now with
    | Except.error e => Except.error e
    | Except.ok (none, task, b, net) =>
      Except.ok ({ b with tasks_to_retry := b.tasks_to_retry ++ [task] },
        logDiag net task.worker_topic)
    | Except.ok (some _, task, b, net) =>
      if task.sent then Except.ok ({ b with tasks := b.tasks ++ [task] }, net)
      else send_task_and_retry_go fuel b net task now

/-- Embeds `Broker::send_task_and_retry`: loop until sent, no worker, or panic. -/
def send_task_and_retry (b : Broker) (net : Net) (task : BTask) (now : Nat) :
    Except String (Broker × Net) :=
  send_task_and_retry_go (b.clients.length + 1) b net task now

/-- The per-snapshot-client body of `Broker::send_response`: send the payload,
then drop the first matching subscription (`position(...).unwrap()` panics when
absent) and delete the client row if its subscription list became empty. -/
def respondStep (topic_field_name payload : String)
    (st : List (String × Client) × Net) (name : String) :
    Except String (List (String × Client) × Net) :=
  let clients := st.1
  let net := (trySend st.2 name payload).2
  match mapGet clients name with
  | none => Except.ok (clients, net)
  | some c =>
    match positionOf topic_field_name c.topics with
    | none => Except.error "send_response: position unwrap on None"
    | some i =>
      let c2 := { c with topics := c.topics.eraseIdx i }
      let clients := mapSet clients name c2
      if c2.topics.isEmpty then Except.ok (mapRemove clients c2.name, net)
      else Except.ok (clients, net)

/-- The fan-out loop of `Broker::send_response` over the snapshot client list. -/
def respondClients (topic_field_name payload : String) (names : List String)
    (clients : List (String × Client)) (net : Net) :
    Except String (List (String × Client) × Net) :=
  names.foldlM (respondStep topic_field_name payload) (clients, net)

/-- Embeds `Broker::send_response`: fan a worker reply out to the snapshot of the
topic's client list, clear the client list, drop the topic row if it has no
workers, and purge in-flight tasks with this response topic. -/
def send_response (b : Broker) (net : Net) (topic_name payload : String) :
    Except String (Broker × Net) :=
  match mapGet b.topics topic_name with
  | none => Except.ok (b, net)
  | some topic =>
    match respondClients topic.name payload topic.clients b.clients net with
    | Except.error e => Except.error e
    | Except.ok (clients, net) =>
      let b := { b with clients := clients }
      match mapGet b.topics topic_name with
      | none => Except.error "send_response: topics get_mut unwrap on None"
      | some t =>
        let t2 := { t with clients := [] }
        let b :=
          if t2.workers.isEmpty
          then { b with topics := mapRemove b.topics topic_name }
          else { b with topics := mapSet b.topics topic_name t2 }
        let kept := b.tasks.filter (fun task => task.response_topic ≠ topic_name)
        Except.ok ({ b with tasks := kept }, net)

/-- One drain step of `Broker::retry_tasks`. -/
def retryStep (now : Nat) (st : Broker × Net) (task : BTask) :
    Except String (Broker × Net) :=
  send_task_and_retry st.1 st.2 task now

/-- Embeds `Broker::retry_tasks`: drain the retry queue through the dispatcher. -/
def retry_tasks (b : Broker) (net : Net) (now : Nat) : Except String (Broker × Net) :=
  b.tasks_to_retry.foldlM (retryStep now) ({ b with tasks_to_retry := [] }, net)

/-- Remove a list of keys in order (`clients_to_remove` application). -/
def mapRemoveAll {α : Type} (m : List (String × α)) (names : List String) :
    List (String × α) :=
  names.foldl (fun acc n => mapRemove acc n) m

/-- The per-client mutation of the sweeper: erase the first matching
subscription, if any (`match position { None => {} Some(i) => remove }`). -/
def sweepClientUpdate (response_topic : String) (c : Client) : Client :=
  match positionOf response_topic c.topics with
  | none => c
  | some i => { c with topics := c.topics.eraseIdx i }

/-- The dropped-task cascade inside `Broker::remove_timeout_tasks`: drop the
response-topic row, erase the first matching subscription of every client,
then delete every client whose subscription list is (now) empty. -/
def sweepDrop (b : Broker) (response_topic : String) : Broker :=
  let topics := mapRemove b.topics response_topic
  let clients1 := b.clients.map (fun p => (p.1, sweepClientUpdate response_topic p.2))
  let toRemove := (clients1.filter (fun p => p.2.topics.isEmpty)).map (fun p => p.2.name)
  { b with topics := topics, clients := mapRemoveAll clients1 toRemove }

/-- One step of the sweep: keep a live task, cascade-drop an expired one. -/
def sweepStep (now : Nat) (st : Broker × List BTask) (task : BTask) :
    Broker × List BTask :=
  if now - task.date < st.1.timeout_as_secs then (st.1, st.2 ++ [task])
  else (sweepDrop st.1 task.response_topic, st.2)

/-- Embeds `Broker::remove_timeout_tasks`: keep in-flight tasks whose elapsed time is
strictly below the timeout, cascade-drop the others. -/
def remove_timeout_tasks (b : Broker) (now : Nat) : Broker :=
  let r := b.tasks.foldl (sweepStep now) (b, [])
  { r.1 with tasks := r.2 }

/-- One assembled 4-frame inbound message. -/
structure Msg where
  identity : String
  topic : String
  response_topic : String
  payload : String
deriving Repr, DecidableEq

/-- One iteration of `main`'s event loop on an assembled message: classify,
handle, run the timeout sweep, and print the debug line unless it is a ping. -/
def stepMsg (b : Broker) (net : Net) (m : Msg) (now : Nat) :
    Except String (Broker × Net) :=
  match
    (if m.topic = "@@PING" then
      let net1 :=
        if m.identity.startsWith "worker" && (mapGet b.clients m.identity).isNone
        then (trySend net m.identity "@@REGISTER").2 else net
      Except.ok (b, (trySend net1 m.identity "@@PONG").2)
    else if m.topic = "@@REGISTER" then
      retry_tasks (add_client b true m.identity m.response_topic) net now
    else if m.response_topic = "" then
      send_response b net m.topic m.payload
    else
      send_task_and_retry (add_client b false m.identity m.response_topic) net
        (BTask.new m.topic m.response_topic m.payload now) now)
  with
  | Except.error e => Except.error e
  | Except.ok (b2, net2) =>
    let b3 := remove_timeout_tasks b2 now
    Except.ok (b3, if m.topic = "@@PING" then net2 else print_debug b3 net2)

/-- A timestamped message event. -/
structure Ev where
  msg : Msg
  now : Nat
deriving Repr, DecidableEq

/-- Run the event loop over a list of arrivals; a panic stops the run. -/
def runMsgs (b : Broker) (net : Net) : List Ev → Except String (Broker × Net)
  | [] => Except.ok (b, net)
  | e :: rest =>
    match stepMsg b net e.msg e.now with
    | Except.error s => Except.error s
    | Except.ok p => runMsgs p.1 p.2 rest

/-- Startup state, `TASK_TIMEOUT` unset (default 60s). -/
def broker0 : Broker :=
  { timeout_as_secs := 60, clients := [], topics := [], tasks := [], tasks_to_retry := [] }

/-- A quiet transport: every send succeeds, empty log. -/
def emptyNet : Net := { oracle := [], log := [] }

/-- Extract the state of a completed run (default values on a panic). -/
def getOk (r : Except String (Broker × Net)) : Broker × Net :=
  match r with
  | Except.ok p => p
  | Except.error _ => (broker0, emptyNet)

/-- Does this event record a send of `payload` to `recipient` (delivered or not)? -/
def isSentEvent (recipient payload : String) : NetEvent → Bool
  | NetEvent.sent r p _ => r == recipient && p == payload
  | _ => false

/-- How many times was `payload` sent to `recipient` in this log? -/
def countSent (log : List NetEvent) (recipient payload : String) : Nat :=
  log.countP (isSentEvent recipient payload)

/-- Is this event a debug summary line? -/
def isDebugEvent : NetEvent → Bool
  | NetEvent.debugLine _ _ _ _ _ => true
  | _ => false

/-- The association list has no duplicate keys (always true of a real `HashMap`). -/
def keysNodup {α : Type} (m : List (String × α)) : Prop := (m.map Prod.fst).Nodup

/-- Every client row's `name` field equals its key (true of every reachable state:
`add_client` creates rows with `Client::new(&identity, ...)` under key `identity`). -/
def clientKeysMatch (m : List (String × Client)) : Prop := ∀ p ∈ m, p.2.name = p.1

instance decKeysNodup {α : Type} (m : List (String × α)) : Decidable (keysNodup m) :=
  inferInstanceAs (Decidable (m.map Prod.fst).Nodup)

instance decClientKeysMatch (m : List (String × Client)) :
    Decidable (clientKeysMatch m) :=
  inferInstanceAs (Decidable (∀ p ∈ m, p.2.name = p.1))

/-- Worker `worker1` registers on topic `T`, then client `c1` submits a request
on worker-topic `T` with response-topic `R`. -/
def pingTrace1 : List Ev :=
  [{ msg := { identity := "worker1", topic := "@@REGISTER", response_topic := "T",
              payload := "" }, now := 0 },
   { msg := { identity := "c1", topic := "T", response_topic := "R",
              payload := "P" }, now := 0 }]

/-- A ping from the (known) worker arriving after the 60s task timeout. -/
def pingEv : Ev :=
  { msg := { identity := "worker1", topic := "@@PING", response_topic := "",
             payload := "" }, now := 61 }

/-- The same trace extended with the late ping. -/
def pingTrace2 : List Ev := pingTrace1 ++ [pingEv]

/-- A transport on which the first send fails (the selected worker is dead). -/
def failFirstNet : Net := { oracle := [false], log := [] }

/-- Worker `worker1` registers on `T`; client `c1` then submits on `T`, and the
dispatch send to `worker1` fails, evicting the last worker of `T`. -/
def evictTrace : List Ev :=
  [{ msg := { identity := "worker1", topic := "@@REGISTER", response_topic := "T",
              payload := "" }, now := 0 },
   { msg := { identity := "c1", topic := "T", response_topic := "R",
              payload := "P" }, now := 0 }]

/-- Client `c1` registers twice on response-topic `R` (two requests on `T`),
then the worker replies on `R`. -/
def fanoutTrace : List Ev :=
  [{ msg := { identity := "worker1", topic := "@@REGISTER", response_topic := "T",
              payload := "" }, now := 0 },
   { msg := { identity := "c1", topic := "T", response_topic := "R",
              payload := "p1" }, now := 0 },
   { msg := { identity := "c1", topic := "T", response_topic := "R",
              payload := "p2" }, now := 0 },
   { msg := { identity := "worker1", topic := "R", response_topic := "",
              payload := "ans" }, now := 0 }]

/-- Client `c1` subscribes twice to `R`: one request is dispatched (in-flight),
the second finds no worker on `T2` and parks in the retry queue. -/
def dupSweepTrace : List Ev :=
  [{ msg := { identity := "worker1", topic := "@@REGISTER", response_topic := "T",
              payload := "" }, now := 0 },
   { msg := { identity := "c1", topic := "T", response_topic := "R",
              payload := "p1" }, now := 0 },
   { msg := { identity := "c1", topic := "T2", response_topic := "R",
              payload := "p2" }, now := 0 }]

/-- A broker state whose topic `T` lists a worker with no client row; evicting
that worker after a failed send hits `self.clients[worker_name]` and panics. -/
def ghostBroker : Broker :=
  { timeout_as_secs := 60, clients := [],
    topics := [("T", { name := "T", workers := ["ghost"], next_worker_index := 0,
                       clients := [] })],
    tasks := [], tasks_to_retry := [] }

/-- Identity `workerW` registers as a worker on `T` and also appears as a plain client on
`R` (a request whose worker-topic `Z` has no workers); a later failed send to
`workerW` evicts it and `remove_worker_from_topics` panics on `R`. -/
def panicTrace : List Ev :=
  [{ msg := { identity := "workerW", topic := "@@REGISTER", response_topic := "T",
              payload := "" }, now := 0 },
   { msg := { identity := "workerW", topic := "Z", response_topic := "R",
              payload := "p" }, now := 0 },
   { msg := { identity := "c1", topic := "T", response_topic := "R2",
              payload := "q" }, now := 0 }]

/-- A broker with one registered worker on `T` and one parked task for `T`. -/
def c7Broker : Broker :=
  { timeout_as_secs := 60,
    clients := [("w", { name := "w", is_worker := true, topics := ["T"] })],
    topics := [("T", { name := "T", workers := ["w"], next_worker_index := 0,
                       clients := [] })],
    tasks := [],
    tasks_to_retry := [BTask.new "T" "RR" "pl" 0] }

/-- A register message from that worker. -/
def c7Msg : Msg :=
  { identity := "w", topic := "@@REGISTER", response_topic := "T", payload := "" }

/-- The completed state of processing `c7Msg` at time 5. -/
def c7Res : Broker × Net := getOk (stepMsg c7Broker emptyNet c7Msg 5)

/-- The topic row of `c7Broker` (one worker `w`, cursor 0). -/
def tW : Topic := { name := "T", workers := ["w"], next_worker_index := 0, clients := [] }

/-- A broker with one pending response subscription and one worker on topic `R`. -/
def c2Broker : Broker :=
  { timeout_as_secs := 60,
    clients := [("c", { name := "c", is_worker := false, topics := ["R"] })],
    topics := [("R", { name := "R", workers := ["w0"], next_worker_index := 0,
                       clients := ["c"] })],
    tasks := [], tasks_to_retry := [] }

/-- The completed state of a fan-out on `R` in `c2Broker`. -/
def c2After : Broker × Net := getOk (send_response c2Broker emptyNet "R" "pay")

/-- The topic row of `R` after that fan-out. -/
def c2TopicAfter : Topic := (mapGet c2After.1.topics "R").getD (Topic.new "R")

/-- A broker whose topic `R` has one subscribed client `c` and no workers. -/
def c3Broker : Broker :=
  { timeout_as_secs := 60,
    clients := [("c", { name := "c", is_worker := false, topics := ["R"] })],
    topics := [("R", { name := "R", workers := [], next_worker_index := 0,
                       clients := ["c"] })],
    tasks := [], tasks_to_retry := [] }

/-- The topic row of `R` in `c3Broker`. -/
def c3Topic : Topic := { name := "R", workers := [], next_worker_index := 0, clients := ["c"] }

/-- The client row of `c` in `c3Broker`. -/
def c3Client : Client := { name := "c", is_worker := false, topics := ["R"] }

/-- A broker holding an existing plain-client row for identity `x`. -/
def c10Broker : Broker :=
  { timeout_as_secs := 60,
    clients := [("x", { name := "x", is_worker := false, topics := ["R"] })],
    topics := [("R", { name := "R", workers := [], next_worker_index := 0,
                       clients := ["x"] })],
    tasks := [], tasks_to_retry := [] }

/-- The existing row of `x` in `c10Broker`. -/
def c10Client : Client := { name := "x", is_worker := false, topics := ["R"] }

/-- The broker state reached by `dupSweepTrace` (client `c1` subscribed twice
to `R`, one in-flight task on `R`, one parked task). -/
def c8State : Broker := (getOk (runMsgs broker0 emptyNet dupSweepTrace)).1

/-- The single in-flight task of `c8State`. -/
def c8Task : BTask :=
  { worker_topic := "T", worker_name := some "worker1", response_topic := "R",
    retry := 1, payload := "p1", date := 0, sent := true }

/-- Net effect of the fan-out loop on one client row that appears `k` times in
the snapshot client list: each pass erases the first matching subscription and
deletes the row once its subscription list empties (later passes then no-op). -/
def fanoutClient (x : String) : Nat → Client → Option Client
  | 0, c => some c
  | k + 1, c =>
    if removeFirst x c.topics = [] then none
    else fanoutClient x k { c with topics := removeFirst x c.topics }

/-! ### Association-list lemmas -/

theorem mapGet_mapSet_self {α : Type} (m : List (String × α)) (k : String) (v : α) :
    mapGet (mapSet m k v) k = (mapGet m k).map (fun _ => v) := by
  induction m with
  | nil => simp [mapGet, mapSet]
  | cons p rest ih =>
    obtain ⟨k1, v1⟩ := p
    by_cases hk : k1 = k
    · simp [mapGet, mapSet, hk]
    · simp [mapGet, mapSet, hk, ih]

theorem mapGet_mapSet_ne {α : Type} (m : List (String × α)) (k k2 : String) (v : α)
    (h : k2 ≠ k) : mapGet (mapSet m k v) k2 = mapGet m k2 := by
  induction m with
  | nil => simp [mapGet, mapSet]
  | cons p rest ih =>
    obtain ⟨k1, v1⟩ := p
    by_cases hk : k1 = k
    · subst hk
      have hne : ¬ k1 = k2 := fun hh => h (hh.symm)
      rw [mapSet, if_pos rfl]
      rw [mapGet, if_neg hne, mapGet, if_neg hne]
    · rw [mapSet, if_neg hk, mapGet, mapGet]
      by_cases hk2 : k1 = k2
      · rw [if_pos hk2, if_pos hk2]
      · rw [if_neg hk2, if_neg hk2, ih]

theorem mapGet_eq_none_iff {α : Type} (m : List (String × α)) (k : String) :
    mapGet m k = none ↔ k ∉ m.map Prod.fst := by
  induction m with
  | nil => simp [mapGet]
  | cons p rest ih =>
    obtain ⟨k1, v1⟩ := p
    by_cases hk : k1 = k
    · subst hk
      simp [mapGet]
    · rw [mapGet, if_neg hk, ih]
      simp only [List.map_cons, List.mem_cons]
      constructor
      · rintro hnot (h1 | h2)
        · exact hk h1.symm
        · exact hnot h2
      · intro hnot h2
        exact hnot (Or.inr h2)

theorem mapGet_mapRemove_ne {α : Type} (m : List (String × α)) (k k2 : String)
    (h : k2 ≠ k) : mapGet (mapRemove m k) k2 = mapGet m k2 := by
  induction m with
  | nil => simp [mapRemove]
  | cons p rest ih =>
    obtain ⟨k1, v1⟩ := p
    by_cases hk : k1 = k
    · subst hk
      have hne : ¬ k1 = k2 := fun hh => h (hh.symm)
      rw [mapRemove, if_pos rfl, mapGet, if_neg hne]
    · rw [mapRemove, if_neg hk, mapGet, mapGet]
      by_cases hk2 : k1 = k2
      · rw [if_pos hk2, if_pos hk2]
      · rw [if_neg hk2, if_neg hk2, ih]

theorem mapGet_mapRemove_self {α : Type} (m : List (String × α)) (k : String)
    (h : keysNodup m) : mapGet (mapRemove m k) k = none := by
  induction m with
  | nil => simp [mapRemove, mapGet]
  | cons p rest ih =>
    obtain ⟨k1, v1⟩ := p
    rw [keysNodup, List.map_cons, List.nodup_cons] at h
    by_cases hk : k1 = k
    · subst hk
      rw [mapRemove, if_pos rfl]
      exact (mapGet_eq_none_iff rest k1).mpr h.1
    · rw [mapRemove, if_neg hk, mapGet, if_neg hk]
      exact ih h.2

theorem keys_mapSet {α : Type} (m : List (String × α)) (k : String) (v : α) :
    (mapSet m k v).map Prod.fst = m.map Prod.fst := by
  induction m with
  | nil => simp [mapSet]
  | cons p rest ih =>
    obtain ⟨k1, v1⟩ := p
    by_cases hk : k1 = k <;> simp [mapSet, hk, ih]

theorem mapRemove_sublist {α : Type} (m : List (String × α)) (k : String) :
    (mapRemove m k).Sublist m := by
  induction m with
  | nil => simp [mapRemove]
  | cons p rest ih =>
    obtain ⟨k1, v1⟩ := p
    by_cases hk : k1 = k
    · rw [mapRemove, if_pos hk]
      exact List.sublist_cons_self _ _
    · rw [mapRemove, if_neg hk]
      exact List.Sublist.cons₂ _ ih

theorem keysNodup_mapSet {α : Type} (m : List (String × α)) (k : String) (v : α)
    (h : keysNodup m) : keysNodup (mapSet m k v) := by
  rw [keysNodup, keys_mapSet]
  exact h

theorem keysNodup_mapRemove {α : Type} (m : List (String × α)) (k : String)
    (h : keysNodup m) : keysNodup (mapRemove m k) :=
  h.sublist ((mapRemove_sublist m k).map Prod.fst)

theorem length_mapRemove {α : Type} (m : List (String × α)) (k : String) (v : α)
    (h : mapGet m k = some v) : (mapRemove m k).length + 1 = m.length := by
  induction m with
  | nil => simp [mapGet] at h
  | cons p rest ih =>
    obtain ⟨k1, v1⟩ := p
    by_cases hk : k1 = k
    · simp [mapRemove, hk]
    · rw [mapGet, if_neg hk] at h
      simp [mapRemove, hk, ih h]

theorem mem_of_mapGet {α : Type} (m : List (String × α)) (k : String) (v : α)
    (h : mapGet m k = some v) : (k, v) ∈ m := by
  induction m with
  | nil => simp [mapGet] at h
  | cons p rest ih =>
    obtain ⟨k1, v1⟩ := p
    by_cases hk : k1 = k
    · subst hk
      rw [mapGet, if_pos rfl, Option.some_inj] at h
      subst h
      exact List.mem_cons_self _ _
    · rw [mapGet, if_neg hk] at h
      exact List.mem_cons_of_mem _ (ih h)

theorem mapGet_append_left {α : Type} (m1 m2 : List (String × α)) (k : String) (v : α)
    (h : mapGet m1 k = some v) : mapGet (m1 ++ m2) k = some v := by
  induction m1 with
  | nil => simp [mapGet] at h
  | cons p rest ih =>
    obtain ⟨k1, v1⟩ := p
    by_cases hk : k1 = k
    · rw [mapGet, if_pos hk] at h
      rw [List.cons_append, mapGet, if_pos hk]
      exact h
    · rw [mapGet, if_neg hk] at h
      rw [List.cons_append, mapGet, if_neg hk]
      exact ih h

theorem mapGet_append_right {α : Type} (m1 m2 : List (String × α)) (k : String)
    (h : mapGet m1 k = none) : mapGet (m1 ++ m2) k = mapGet m2 k := by
  induction m1 with
  | nil => simp
  | cons p rest ih =>
    obtain ⟨k1, v1⟩ := p
    by_cases hk : k1 = k
    · rw [mapGet, if_pos hk] at h
      exact absurd h (by simp)
    · rw [mapGet, if_neg hk] at h
      rw [List.cons_append, mapGet, if_neg hk]
      exact ih h

theorem mapGet_map_values {α β : Type} (g : α → β) (m : List (String × α)) (k : String) :
    mapGet (m.map (fun p => (p.1, g p.2))) k = (mapGet m k).map g := by
  induction m with
  | nil => simp [mapGet]
  | cons p rest ih =>
    obtain ⟨k1, v1⟩ := p
    by_cases hk : k1 = k <;> simp [mapGet, hk, ih]

theorem mapGet_mapRemoveAll {α : Type} (names : List String) (m : List (String × α))
    (k : String) (h : keysNodup m) :
    mapGet (mapRemoveAll m names) k = if k ∈ names then none else mapGet m k := by
  induction names generalizing m with
  | nil => simp [mapRemoveAll]
  | cons n rest ih =>
    rw [mapRemoveAll, List.foldl_cons]
    rw [show (List.foldl (fun acc n => mapRemove acc n) (mapRemove m n) rest)
          = mapRemoveAll (mapRemove m n) rest from rfl]
    rw [ih (mapRemove m n) (keysNodup_mapRemove m n h)]
    by_cases hk : k = n
    · subst hk
      simp [mapGet_mapRemove_self m k h]
    · by_cases hr : k ∈ rest <;> simp [hk, hr, mapGet_mapRemove_ne m n k hk]

/-! ### Position / first-occurrence lemmas -/

theorem positionOf_eq_none_iff (x : String) (l : List String) :
    positionOf x l = none ↔ x ∉ l := by
  induction l with
  | nil => simp [positionOf]
  | cons y ys ih =>
    by_cases hy : y = x
    · subst hy
      simp [positionOf]
    · have hxy : ¬ x = y := fun hh => hy hh.symm
      simp [positionOf, hy, ih, hxy, Option.map_eq_none']

theorem removeFirst_of_not_mem (x : String) (l : List String) (h : x ∉ l) :
    removeFirst x l = l := by
  induction l with
  | nil => simp [removeFirst]
  | cons y ys ih =>
    have hy : ¬ y = x := fun hh => h (hh ▸ List.mem_cons_self y ys)
    rw [removeFirst, if_neg hy, ih (fun hm => h (List.mem_cons_of_mem _ hm))]

theorem eraseIdx_positionOf (x : String) (l : List String) (i : Nat)
    (h : positionOf x l = some i) : l.eraseIdx i = removeFirst x l := by
  induction l generalizing i with
  | nil => simp [positionOf] at h
  | cons y ys ih =>
    by_cases hy : y = x
    · rw [positionOf, if_pos hy] at h
      rw [Option.some_inj] at h
      subst h
      rw [removeFirst, if_pos hy]
      rfl
    · rw [positionOf, if_neg hy] at h
      cases hp : positionOf x ys with
      | none =>
        rw [hp] at h
        simp at h
      | some j =>
        rw [hp] at h
        simp only [Option.map_some', Option.some_inj] at h
        subst h
        rw [removeFirst, if_neg hy]
        rw [show (y :: ys).eraseIdx (j + 1) = y :: ys.eraseIdx j from rfl, ih j hp]

theorem countOcc_pos_iff (x : String) (l : List String) :
    0 < countOcc x l ↔ x ∈ l := by
  induction l with
  | nil => simp [countOcc]
  | cons y ys ih =>
    by_cases hy : y = x
    · subst hy
      simp [countOcc]
    · have hxy : ¬ x = y := fun hh => hy hh.symm
      simp [countOcc, hy, ih, hxy]

theorem countOcc_removeFirst (x : String) (l : List String) (h : x ∈ l) :
    countOcc x (removeFirst x l) + 1 = countOcc x l := by
  induction l with
  | nil => simp at h
  | cons y ys ih =>
    by_cases hy : y = x
    · rw [removeFirst, if_pos hy, countOcc, if_pos hy]
      omega
    · have hmem : x ∈ ys := by
        rcases List.mem_cons.mp h with h1 | h2
        · exact absurd h1.symm hy
        · exact h2
      rw [removeFirst, if_neg hy, countOcc, if_neg hy, countOcc, if_neg hy]
      have := ih hmem
      omega

theorem positionOf_isSome_of_mem (x : String) (l : List String) (h : x ∈ l) :
    ∃ i, positionOf x l = some i := by
  cases hp : positionOf x l with
  | none => exact absurd ((positionOf_eq_none_iff x l).mp hp) (fun hn => hn h)
  | some i => exact ⟨i, rfl⟩

/-! ### Frame lemmas for the dispatcher -/

theorem except_bind_ok {α β : Type} (a : α) (f : α → Except String β) :
    (Except.ok a >>= f) = f a := rfl

theorem except_bind_error {α β : Type} (e : String) (f : α → Except String β) :
    ((Except.error e : Except String α) >>= f) = Except.error e := rfl

theorem gnw_frame (b : Broker) (tname : String) :
    (get_next_worker_name b tname).2.clients = b.clients ∧
    (get_next_worker_name b tname).2.tasks = b.tasks ∧
    (get_next_worker_name b tname).2.tasks_to_retry = b.tasks_to_retry ∧
    (get_next_worker_name b tname).2.timeout_as_secs = b.timeout_as_secs := by
  cases h : mapGet b.topics tname with
  | none => simp [get_next_worker_name, h]
  | some topic =>
    cases h2 : topic.workers[topic.next_worker_index]? with
    | some w => simp [get_next_worker_name, h, h2]
    | none => simp [get_next_worker_name, h, h2]

theorem removeWorkerStep_frame (wn : String) (acc b2 : Broker) (tname : String)
    (h : removeWorkerStep wn acc tname = Except.ok b2) :
    b2.clients = acc.clients ∧ b2.tasks = acc.tasks ∧
    b2.tasks_to_retry = acc.tasks_to_retry ∧ b2.timeout_as_secs = acc.timeout_as_secs := by
  cases h1 : mapGet acc.topics tname with
  | none =>
    simp only [removeWorkerStep, h1, Except.ok.injEq] at h
    subst h
    exact ⟨rfl, rfl, rfl, rfl⟩
  | some topic =>
    cases h2 : positionOf wn topic.workers with
    | none =>
      simp only [removeWorkerStep, h1, h2] at h
      exact absurd h (by simp)
    | some i =>
      simp only [removeWorkerStep, h1, h2, Except.ok.injEq] at h
      subst h
      exact ⟨rfl, rfl, rfl, rfl⟩

theorem foldRW_frame (l : List String) (wn : String) :
    ∀ b b2 : Broker, l.foldlM (removeWorkerStep wn) b = Except.ok b2 →
    b2.clients = b.clients ∧ b2.tasks = b.tasks ∧
    b2.tasks_to_retry = b.tasks_to_retry ∧ b2.timeout_as_secs = b.timeout_as_secs := by
  induction l with
  | nil =>
    intro b b2 h
    rw [List.foldlM_nil] at h
    rw [show (pure b : Except String Broker) = Except.ok b from rfl, Except.ok.injEq] at h
    subst h
    exact ⟨rfl, rfl, rfl, rfl⟩
  | cons t rest ih =>
    intro b b2 h
    rw [List.foldlM_cons] at h
    cases hs : removeWorkerStep wn b t with
    | error e =>
      rw [hs, except_bind_error] at h
      exact absurd h (by simp)
    | ok bmid =>
      rw [hs, except_bind_ok] at h
      obtain ⟨h1, h2, h3, h4⟩ := removeWorkerStep_frame wn b bmid t hs
      obtain ⟨g1, g2, g3, g4⟩ := ih bmid b2 h
      exact ⟨g1.trans h1, g2.trans h2, g3.trans h3, g4.trans h4⟩

theorem remove_worker_frame (b b2 : Broker) (wn : String)
    (h : remove_worker b wn = Except.ok b2) :
    b2.tasks = b.tasks ∧ b2.tasks_to_retry = b.tasks_to_retry ∧
    b2.timeout_as_secs = b.timeout_as_secs ∧ b2.clients.length < b.clients.length := by
  cases h1 : mapGet b.clients wn with
  | none =>
    simp only [remove_worker, h1] at h
    exact absurd h (by simp)
  | some w =>
    cases h2 : remove_worker_from_topics b w with
    | error e =>
      simp only [remove_worker, h1, h2] at h
      exact absurd h (by simp)
    | ok bmid =>
      simp only [remove_worker, h1, h2, Except.ok.injEq] at h
      obtain ⟨hc, ht, hr, hto⟩ := foldRW_frame w.topics w.name b bmid h2
      subst h
      refine ⟨ht, hr, hto, ?_⟩
      have hlen := length_mapRemove b.clients wn w h1
      simp only
      rw [hc]
      omega

theorem send_task_spec (b : Broker) (net : Net) (task : BTask) (now : Nat)
    (r : Option String) (t2 : BTask) (b2 : Broker) (net2 : Net)
    (h : send_task b net task now = Except.ok (r, t2, b2, net2)) :
    t2.worker_topic = task.worker_topic ∧ t2.response_topic = task.response_topic ∧
    t2.payload = task.payload ∧ t2.date = now ∧
    b2.tasks = b.tasks ∧ b2.tasks_to_retry = b.tasks_to_retry ∧
    b2.timeout_as_secs = b.timeout_as_secs ∧
    (t2.sent = false → r ≠ none → b2.clients.length < b.clients.length) := by
  have hframe := gnw_frame b task.worker_topic
  rcases hgn : get_next_worker_name b task.worker_topic with ⟨sel1, bsel⟩
  rw [hgn] at hframe
  simp only [send_task] at h
  rw [hgn] at h
  dsimp only at h hframe
  cases sel1 with
  | none =>
    simp only [Except.ok.injEq, Prod.mk.injEq] at h
    obtain ⟨hr, ht, hb, hn⟩ := h
    subst hr
    subst ht
    subst hb
    refine ⟨rfl, rfl, rfl, rfl, hframe.2.1, hframe.2.2.1, hframe.2.2.2, ?_⟩
    intro _ hne
    exact absurd rfl hne
  | some wn =>
    dsimp only at h
    rcases hts : trySend net wn task.payload with ⟨deliv, net3⟩
    rw [hts] at h
    dsimp only at h
    cases deliv with
    | true =>
      simp only [if_true, Except.ok.injEq, Prod.mk.injEq] at h
      obtain ⟨hr, ht, hb, hn⟩ := h
      subst ht
      subst hb
      refine ⟨rfl, rfl, rfl, rfl, hframe.2.1, hframe.2.2.1, hframe.2.2.2, ?_⟩
      intro hfalse
      simp at hfalse
    | false =>
      simp only [Bool.false_eq_true, if_false] at h
      cases hrw : remove_worker bsel wn with
      | error e =>
        rw [hrw] at h
        exact absurd h (by simp)
      | ok brw =>
        rw [hrw] at h
        simp only [Except.ok.injEq, Prod.mk.injEq] at h
        obtain ⟨hr, ht, hb, hn⟩ := h
        subst ht
        subst hb
        obtain ⟨g1, g2, g3, g4⟩ := remove_worker_frame bsel brw wn hrw
        refine ⟨rfl, rfl, rfl, rfl, g1.trans hframe.2.1, g2.trans hframe.2.2.1,
          g3.trans hframe.2.2.2, ?_⟩
        intro _ _
        rw [hframe.1] at g4
        exact g4

/-- Outcome shape of the dispatch loop with sufficient fuel: a panic, a task
appended to the in-flight table with `sent = true`, or a task appended to the
retry queue together with the diagnostic line. -/
theorem dispatch_outcome_go (fuel : Nat) :
    ∀ (b : Broker) (net : Net) (task : BTask) (now : Nat),
    b.clients.length < fuel →
    (∃ e, send_task_and_retry_go fuel b net task now = Except.error e) ∨
    (∃ b2 net2 t2, send_task_and_retry_go fuel b net task now = Except.ok (b2, net2) ∧
      t2.worker_topic = task.worker_topic ∧ t2.response_topic = task.response_topic ∧
      t2.payload = task.payload ∧ t2.date = now ∧
      b2.timeout_as_secs = b.timeout_as_secs ∧
      ((t2.sent = true ∧ b2.tasks = b.tasks ++ [t2] ∧
        b2.tasks_to_retry = b.tasks_to_retry) ∨
       (b2.tasks_to_retry = b.tasks_to_retry ++ [t2] ∧ b2.tasks = b.tasks ∧
        NetEvent.diag t2.worker_topic ∈ net2.log))) := by
  induction fuel with
  | zero =>
    intro b net task now hlt
    exact absurd hlt (Nat.not_lt_zero _)
  | succ fuel ih =>
    intro b net task now hlt
    cases hst : send_task b net task now with
    | error e =>
      left
      exact ⟨e, by simp [send_task_and_retry_go, hst]⟩
    | ok q =>
      obtain ⟨r, t2, b2, net2⟩ := q
      obtain ⟨f1, f2, f3, f4, f5, f6, f7, f8⟩ :=
        send_task_spec b net task now r t2 b2 net2 hst
      cases r with
      | none =>
        right
        refine ⟨{ b2 with tasks_to_retry := b2.tasks_to_retry ++ [t2] },
          logDiag net2 t2.worker_topic, t2, ?_, f1, f2, f3, f4, f7,
          Or.inr ⟨?_, ?_, ?_⟩⟩
        · simp [send_task_and_retry_go, hst]
        · simp [f6]
        · exact f5
        · simp [logDiag]
      | some wn =>
        cases hsent : t2.sent with
        | true =>
          right
          refine ⟨{ b2 with tasks := b2.tasks ++ [t2] }, net2, t2, ?_, f1, f2, f3,
            f4, f7, Or.inl ⟨hsent, ?_, ?_⟩⟩
          · simp [send_task_and_retry_go, hst, hsent]
          · simp [f5]
          · exact f6
        | false =>
          have hlen := f8 hsent (by simp)
          have hred : send_task_and_retry_go (fuel + 1) b net task now
              = send_task_and_retry_go fuel b2 net2 t2 now := by
            simp [send_task_and_retry_go, hst, hsent]
          rcases ih b2 net2 t2 now (by omega) with ⟨e, he⟩ |
            ⟨b3, net3, t3, hok, g1, g2, g3, g4, g5, gcase⟩
          · left
            exact ⟨e, by rw [hred]; exact he⟩
          · right
            refine ⟨b3, net3, t3, by rw [hred]; exact hok, g1.trans f1,
              g2.trans f2, g3.trans f3, g4, g5.trans f7, ?_⟩
            rcases gcase with ⟨c1, c2, c3⟩ | ⟨c1, c2, c3⟩
            · exact Or.inl ⟨c1, by rw [c2, f5], c3.trans f6⟩
            · exact Or.inr ⟨by rw [c1, f6], c2.trans f5, c3⟩

/-- Lemma `dispatch_outcome_go` at the wrapper's fuel. -/
theorem dispatch_outcome (b : Broker) (net : Net) (task : BTask) (now : Nat) :
    (∃ e, send_task_and_retry b net task now = Except.error e) ∨
    (∃ b2 net2 t2, send_task_and_retry b net task now = Except.ok (b2, net2) ∧
      t2.worker_topic = task.worker_topic ∧ t2.response_topic = task.response_topic ∧
      t2.payload = task.payload ∧ t2.date = now ∧
      b2.timeout_as_secs = b.timeout_as_secs ∧
      ((t2.sent = true ∧ b2.tasks = b.tasks ++ [t2] ∧
        b2.tasks_to_retry = b.tasks_to_retry) ∨
       (b2.tasks_to_retry = b.tasks_to_retry ++ [t2] ∧ b2.tasks = b.tasks ∧
        NetEvent.diag t2.worker_topic ∈ net2.log))) :=
  dispatch_outcome_go (b.clients.length + 1) b net task now (Nat.lt_succ_self _)

/-! ### Sweep lemmas -/

theorem mapGet_of_mem {α : Type} (m : List (String × α)) (k : String) (v : α)
    (hnd : keysNodup m) (h : (k, v) ∈ m) : mapGet m k = some v := by
  induction m with
  | nil => simp at h
  | cons p rest ih =>
    obtain ⟨k1, v1⟩ := p
    rw [keysNodup, List.map_cons, List.nodup_cons] at hnd
    rcases List.mem_cons.mp h with h1 | h2
    · rw [Prod.mk.injEq] at h1
      obtain ⟨hk, hv⟩ := h1
      subst hk
      subst hv
      rw [mapGet, if_pos rfl]
    · by_cases hk : k1 = k
      · subst hk
        exact absurd (List.mem_map.mpr ⟨(k1, v), h2, rfl⟩) hnd.1
      · rw [mapGet, if_neg hk]
        exact ih hnd.2 h2

theorem keys_map_values {α β : Type} (g : α → β) (m : List (String × α)) :
    (m.map (fun p => (p.1, g p.2))).map Prod.fst = m.map Prod.fst := by
  induction m with
  | nil => simp
  | cons p rest ih => simp [ih]

theorem sweepClientUpdate_eq (r : String) (c : Client) :
    sweepClientUpdate r c = { c with topics := removeFirst r c.topics } := by
  rw [sweepClientUpdate]
  cases hp : positionOf r c.topics with
  | none =>
    rw [removeFirst_of_not_mem r c.topics ((positionOf_eq_none_iff r c.topics).mp hp)]
  | some i =>
    dsimp only
    rw [eraseIdx_positionOf r c.topics i hp]

theorem clientKeysMatch_map (r : String) (m : List (String × Client))
    (h : clientKeysMatch m) :
    clientKeysMatch (m.map (fun p => (p.1, sweepClientUpdate r p.2))) := by
  intro p hp
  obtain ⟨q, hq, hqe⟩ := List.mem_map.mp hp
  rw [← hqe]
  show (sweepClientUpdate r q.2).name = q.1
  rw [sweepClientUpdate_eq]
  exact h q hq

theorem sweepDrop_frame (b : Broker) (r : String) :
    (sweepDrop b r).tasks = b.tasks ∧ (sweepDrop b r).tasks_to_retry = b.tasks_to_retry ∧
    (sweepDrop b r).timeout_as_secs = b.timeout_as_secs :=
  ⟨rfl, rfl, rfl⟩

theorem sweepDrop_topics (b : Broker) (r u : String) (hnd : keysNodup b.topics) :
    mapGet (sweepDrop b r).topics u = if u = r then none else mapGet b.topics u := by
  by_cases hu : u = r
  · subst hu
    rw [if_pos rfl]
    exact mapGet_mapRemove_self b.topics u hnd
  · rw [if_neg hu]
    exact mapGet_mapRemove_ne b.topics r u hu

theorem sweepDrop_clients (b : Broker) (r : String) (hnd : keysNodup b.clients)
    (hnm : clientKeysMatch b.clients) (id : String) :
    mapGet (sweepDrop b r).clients id
      = (mapGet b.clients id).bind (fun c =>
          if (removeFirst r c.topics).isEmpty then none
          else some { c with topics := removeFirst r c.topics }) := by
  have hnd1 : keysNodup (b.clients.map (fun p => (p.1, sweepClientUpdate r p.2))) := by
    rw [keysNodup, keys_map_values]
    exact hnd
  have hnm1 := clientKeysMatch_map r b.clients hnm
  show mapGet (mapRemoveAll (b.clients.map (fun p => (p.1, sweepClientUpdate r p.2)))
      (((b.clients.map (fun p => (p.1, sweepClientUpdate r p.2))).filter
        (fun p => p.2.topics.isEmpty)).map (fun p => p.2.name))) id = _
  rw [mapGet_mapRemoveAll _ _ _ hnd1]
  have hmv := mapGet_map_values (sweepClientUpdate r) b.clients id
  have hiff : (id ∈ ((b.clients.map (fun p => (p.1, sweepClientUpdate r p.2))).filter
        (fun p => p.2.topics.isEmpty)).map (fun p => p.2.name)) ↔
      (∃ c1, mapGet (b.clients.map (fun p => (p.1, sweepClientUpdate r p.2))) id = some c1 ∧
        c1.topics = []) := by
    constructor
    · intro hm
      obtain ⟨p, hp, hpn⟩ := List.mem_map.mp hm
      have hpf := List.mem_filter.mp hp
      have hp1 : p.1 = id := by
        rw [← hpn]
        exact (hnm1 p hpf.1).symm
      refine ⟨p.2, ?_, ?_⟩
      · rw [← hp1]
        exact mapGet_of_mem _ p.1 p.2 hnd1 (by rw [Prod.mk.eta]; exact hpf.1)
      · have := hpf.2
        simp only [List.isEmpty_iff] at this
        exact this
    · rintro ⟨c1, hc1, hc1e⟩
      have hm : (id, c1) ∈ b.clients.map (fun p => (p.1, sweepClientUpdate r p.2)) :=
        mem_of_mapGet _ _ _ hc1
      refine List.mem_map.mpr ⟨(id, c1), List.mem_filter.mpr ⟨hm, by simp [hc1e]⟩, ?_⟩
      exact hnm1 (id, c1) hm
  cases hm : mapGet b.clients id with
  | none =>
    rw [hm] at hmv
    simp only [Option.map_none'] at hmv
    have hnotmem : ¬ _ := fun hmem => by
      obtain ⟨c1, hc1, _⟩ := hiff.mp hmem
      rw [hmv] at hc1
      exact Option.noConfusion hc1
    rw [if_neg hnotmem, hmv]
    rfl
  | some c =>
    rw [hm] at hmv
    simp only [Option.map_some'] at hmv
    rw [sweepClientUpdate_eq] at hmv
    by_cases hl : removeFirst r c.topics = []
    · have hmem := hiff.mpr ⟨{ c with topics := removeFirst r c.topics }, hmv, hl⟩
      rw [if_pos hmem]
      simp [hl]
    · have hnotmem : ¬ _ := fun hmem => by
        obtain ⟨c1, hc1, hc1e⟩ := hiff.mp hmem
        rw [hmv, Option.some_inj] at hc1
        rw [← hc1] at hc1e
        exact hl hc1e
      rw [if_neg hnotmem, hmv]
      simp [List.isEmpty_iff, hl]

theorem sweepFold_spec (tasks : List BTask) (now : Nat) :
    ∀ (b : Broker) (acc : List BTask),
    (tasks.foldl (sweepStep now) (b, acc)).2
      = acc ++ tasks.filter (fun t => decide (now - t.date < b.timeout_as_secs)) ∧
    (tasks.foldl (sweepStep now) (b, acc)).1.timeout_as_secs = b.timeout_as_secs ∧
    (tasks.foldl (sweepStep now) (b, acc)).1.tasks = b.tasks ∧
    (tasks.foldl (sweepStep now) (b, acc)).1.tasks_to_retry = b.tasks_to_retry := by
  induction tasks with
  | nil =>
    intro b acc
    simp
  | cons t rest ih =>
    intro b acc
    rw [List.foldl_cons]
    by_cases hc : now - t.date < b.timeout_as_secs
    · have hstep : sweepStep now (b, acc) t = (b, acc ++ [t]) := by
        simp [sweepStep, hc]
      rw [hstep]
      obtain ⟨h1, h2, h3, h4⟩ := ih b (acc ++ [t])
      refine ⟨?_, h2, h3, h4⟩
      rw [h1, List.filter_cons, if_pos (by simpa using hc)]
      simp
    · have hstep : sweepStep now (b, acc) t = (sweepDrop b t.response_topic, acc) := by
        simp [sweepStep, hc]
      rw [hstep]
      obtain ⟨h1, h2, h3, h4⟩ := ih (sweepDrop b t.response_topic) acc
      refine ⟨?_, h2, h3, h4⟩
      rw [h1, List.filter_cons, if_neg (by simpa using hc)]
      rfl

theorem sweep_tasks_eq_filter (b : Broker) (now : Nat) :
    (remove_timeout_tasks b now).tasks
      = b.tasks.filter (fun t => decide (now - t.date < b.timeout_as_secs)) := by
  have h := sweepFold_spec b.tasks now b []
  show (b.tasks.foldl (sweepStep now) (b, [])).2 = _
  rw [h.1]
  simp

theorem sweep_frame (b : Broker) (now : Nat) :
    (remove_timeout_tasks b now).tasks_to_retry = b.tasks_to_retry ∧
    (remove_timeout_tasks b now).timeout_as_secs = b.timeout_as_secs := by
  have h := sweepFold_spec b.tasks now b []
  exact ⟨h.2.2.2, h.2.1⟩

theorem sweepFold_kept (pre : List BTask) (now : Nat) :
    ∀ (b : Broker) (acc : List BTask),
    (∀ u ∈ pre, now - u.date < b.timeout_as_secs) →
    pre.foldl (sweepStep now) (b, acc) = (b, acc ++ pre) := by
  induction pre with
  | nil =>
    intro b acc _
    simp
  | cons u rest ih =>
    intro b acc h
    rw [List.foldl_cons]
    have hstep : sweepStep now (b, acc) u = (b, acc ++ [u]) := by
      simp [sweepStep, h u (List.mem_cons_self u rest)]
    rw [hstep, ih b (acc ++ [u]) (fun v hv => h v (List.mem_cons_of_mem u hv))]
    simp

theorem sweep_single_drop (b : Broker) (now : Nat) (pre post : List BTask) (t : BTask)
    (hsplit : b.tasks = pre ++ t :: post)
    (hpre : ∀ u ∈ pre, now - u.date < b.timeout_as_secs)
    (hpost : ∀ u ∈ post, now - u.date < b.timeout_as_secs)
    (ht : ¬ (now - t.date < b.timeout_as_secs)) :
    remove_timeout_tasks b now
      = { sweepDrop b t.response_topic with tasks := pre ++ post } := by
  show { (b.tasks.foldl (sweepStep now) (b, [])).1 with
         tasks := (b.tasks.foldl (sweepStep now) (b, [])).2 } = _
  rw [hsplit, List.foldl_append, sweepFold_kept pre now b [] hpre]
  rw [List.nil_append, List.foldl_cons]
  have hstep : sweepStep now (b, pre) t = (sweepDrop b t.response_topic, pre) := by
    simp [sweepStep, ht]
  rw [hstep, sweepFold_kept post now (sweepDrop b t.response_topic) pre
    (fun v hv => hpost v hv)]

/-! ### Fan-out lemmas -/

theorem countSent_trySend (net : Net) (r p i : String) :
    countSent ((trySend net r p).2).log i p
      = countSent net.log i p + (if r = i then 1 else 0) := by
  show countSent (net.log ++ [NetEvent.sent r p (net.oracle.headD true)]) i p = _
  rw [countSent, countSent, List.countP_append]
  by_cases hr : r = i
  · subst hr
    simp [List.countP_cons, isSentEvent]
  · have hfalse : ∀ d, isSentEvent i p (NetEvent.sent r p d) = false := by
      intro d
      simp [isSentEvent]
      intro hc
      exact absurd hc hr
    simp [List.countP_cons, hfalse, hr]

theorem clientKeysMatch_mapSet (m : List (String × Client)) (k : String) (c : Client)
    (h : clientKeysMatch m) (hc : c.name = k) : clientKeysMatch (mapSet m k c) := by
  induction m with
  | nil => intro p hp; simp [mapSet] at hp
  | cons q rest ih =>
    obtain ⟨k1, v1⟩ := q
    intro p hp
    by_cases hk : k1 = k
    · rw [mapSet, if_pos hk] at hp
      rcases List.mem_cons.mp hp with h1 | h2
      · subst h1
        show c.name = k1
        rw [hc, hk]
      · exact h p (List.mem_cons_of_mem _ h2)
    · rw [mapSet, if_neg hk] at hp
      rcases List.mem_cons.mp hp with h1 | h2
      · subst h1
        exact h _ (List.mem_cons_self _ _)
      · exact ih (fun q hq => h q (List.mem_cons_of_mem _ hq)) p h2

theorem clientKeysMatch_mapRemove (m : List (String × Client)) (k : String)
    (h : clientKeysMatch m) : clientKeysMatch (mapRemove m k) :=
  fun p hp => h p ((mapRemove_sublist m k).subset hp)

theorem respondFold_spec (names : List String) (x payload : String) :
    ∀ (m : List (String × Client)) (net : Net),
    keysNodup m → clientKeysMatch m →
    (∀ id c, mapGet m id = some c → countOcc id names ≤ countOcc x c.topics) →
    ∃ m2 net2,
      names.foldlM (respondStep x payload) (m, net) = Except.ok (m2, net2) ∧
      (∀ id, countSent net2.log id payload
        = countSent net.log id payload + countOcc id names) ∧
      (∀ id, mapGet m2 id
        = (mapGet m id).bind (fanoutClient x (countOcc id names))) := by
  induction names with
  | nil =>
    intro m net hnd hnm hcount
    refine ⟨m, net, rfl, ?_, ?_⟩
    · intro id
      simp [countOcc]
    · intro id
      cases hm : mapGet m id with
      | none => rfl
      | some c => simp [fanoutClient, countOcc]
  | cons n rest ih =>
    intro m net hnd hnm hcount
    rw [List.foldlM_cons]
    cases hm : mapGet m n with
    | none =>
      have hstep : respondStep x payload (m, net) n
          = Except.ok (m, (trySend net n payload).2) := by
        simp [respondStep, hm]
      rw [hstep, except_bind_ok]
      obtain ⟨m2, net2, hfold, hsent, hget⟩ :=
        ih m (trySend net n payload).2 hnd hnm
          (fun id c hc => le_trans (Nat.le_add_left _ _) (hcount id c hc))
      refine ⟨m2, net2, hfold, ?_, ?_⟩
      · intro id
        rw [hsent id, countSent_trySend net n payload id]
        show _ = countSent net.log id payload + ((if n = id then 1 else 0) + countOcc id rest)
        omega
      · intro id
        rw [hget id]
        by_cases hid : id = n
        · subst hid
          rw [hm]
          rfl
        · have hco : countOcc id (n :: rest) = countOcc id rest := by
            have : ¬ n = id := fun hh => hid hh.symm
            simp [countOcc, this]
          rw [hco]
    | some c =>
      have hx : x ∈ c.topics := by
        have h1 := hcount n c hm
        have h2 : 0 < countOcc n (n :: rest) := by simp [countOcc]
        exact (countOcc_pos_iff x c.topics).mp (lt_of_lt_of_le h2 h1)
      obtain ⟨i, hi⟩ := positionOf_isSome_of_mem x c.topics hx
      have hc2 : c.topics.eraseIdx i = removeFirst x c.topics :=
        eraseIdx_positionOf x c.topics i hi
      have hname : c.name = n := hnm (n, c) (mem_of_mapGet m n c hm)
      have hcn : countOcc n (n :: rest) = countOcc n rest + 1 := by
        simp [countOcc]
        omega
      by_cases hemp : removeFirst x c.topics = []
      · have hstep : respondStep x payload (m, net) n
            = Except.ok
              (mapRemove (mapSet m n ({ c with topics := removeFirst x c.topics })) n,
               (trySend net n payload).2) := by
          simp [respondStep, hm, hi, hc2, List.isEmpty_iff, hemp, hname]
        rw [hstep, except_bind_ok]
        have hnd1 : keysNodup (mapRemove (mapSet m n
            ({ c with topics := removeFirst x c.topics })) n) :=
          keysNodup_mapRemove _ _ (keysNodup_mapSet _ _ _ hnd)
        have hnm1 : clientKeysMatch (mapRemove (mapSet m n
            ({ c with topics := removeFirst x c.topics })) n) :=
          clientKeysMatch_mapRemove _ _ (clientKeysMatch_mapSet _ _ _ hnm hname)
        have hget1 : ∀ id, mapGet (mapRemove (mapSet m n
            ({ c with topics := removeFirst x c.topics })) n) id
            = if id = n then none else mapGet m id := by
          intro id
          by_cases hid : id = n
          · subst hid
            rw [if_pos rfl]
            exact mapGet_mapRemove_self _ _ (keysNodup_mapSet _ _ _ hnd)
          · rw [if_neg hid, mapGet_mapRemove_ne _ _ _ hid, mapGet_mapSet_ne _ _ _ _ hid]
        have hcount1 : ∀ id c1, mapGet (mapRemove (mapSet m n
            ({ c with topics := removeFirst x c.topics })) n) id = some c1 →
            countOcc id rest ≤ countOcc x c1.topics := by
          intro id c1 hc1
          rw [hget1 id] at hc1
          by_cases hid : id = n
          · rw [if_pos hid] at hc1
            exact Option.noConfusion hc1
          · rw [if_neg hid] at hc1
            exact le_trans (Nat.le_add_left _ _) (hcount id c1 hc1)
        obtain ⟨m2, net2, hfold, hsent, hget⟩ :=
          ih _ (trySend net n payload).2 hnd1 hnm1 hcount1
        refine ⟨m2, net2, hfold, ?_, ?_⟩
        · intro id
          rw [hsent id, countSent_trySend net n payload id]
          show _ = countSent net.log id payload + ((if n = id then 1 else 0) + countOcc id rest)
          omega
        · intro id
          rw [hget id, hget1 id]
          by_cases hid : id = n
          · subst hid
            rw [if_pos rfl, hm, hcn]
            show (none : Option Client).bind _ = _
            simp [fanoutClient, hemp]
          · rw [if_neg hid]
            have hco : countOcc id (n :: rest) = countOcc id rest := by
              have : ¬ n = id := fun hh => hid hh.symm
              simp [countOcc, this]
            rw [hco]
      · have hstep : respondStep x payload (m, net) n
            = Except.ok (mapSet m n ({ c with topics := removeFirst x c.topics }),
               (trySend net n payload).2) := by
          simp [respondStep, hm, hi, hc2, List.isEmpty_iff, hemp, hname]
        rw [hstep, except_bind_ok]
        have hnd1 : keysNodup (mapSet m n ({ c with topics := removeFirst x c.topics })) :=
          keysNodup_mapSet _ _ _ hnd
        have hnm1 : clientKeysMatch (mapSet m n
            ({ c with topics := removeFirst x c.topics })) :=
          clientKeysMatch_mapSet _ _ _ hnm hname
        have hget1 : ∀ id, mapGet (mapSet m n
            ({ c with topics := removeFirst x c.topics })) id
            = if id = n then some { c with topics := removeFirst x c.topics }
              else mapGet m id := by
          intro id
          by_cases hid : id = n
          · subst hid
            rw [if_pos rfl, mapGet_mapSet_self, hm]
            rfl
          · rw [if_neg hid, mapGet_mapSet_ne _ _ _ _ hid]
        have hcount1 : ∀ id c1, mapGet (mapSet m n
            ({ c with topics := removeFirst x c.topics })) id = some c1 →
            countOcc id rest ≤ countOcc x c1.topics := by
          intro id c1 hc1
          rw [hget1 id] at hc1
          by_cases hid : id = n
          · rw [if_pos hid] at hc1
            rw [Option.some_inj] at hc1
            subst hc1
            subst hid
            show countOcc id rest ≤ countOcc x (removeFirst x c.topics)
            have hrm := countOcc_removeFirst x c.topics hx
            have h1 := hcount id c hm
            rw [hcn] at h1
            omega
          · rw [if_neg hid] at hc1
            exact le_trans (Nat.le_add_left _ _) (hcount id c1 hc1)
        obtain ⟨m2, net2, hfold, hsent, hget⟩ :=
          ih _ (trySend net n payload).2 hnd1 hnm1 hcount1
        refine ⟨m2, net2, hfold, ?_, ?_⟩
        · intro id
          rw [hsent id, countSent_trySend net n payload id]
          show _ = countSent net.log id payload + ((if n = id then 1 else 0) + countOcc id rest)
          omega
        · intro id
          rw [hget id, hget1 id]
          by_cases hid : id = n
          · subst hid
            rw [if_pos rfl, hm, hcn]
            show _ = (fanoutClient x (countOcc id rest + 1)) c
            rw [show fanoutClient x (countOcc id rest + 1) c
                = if removeFirst x c.topics = [] then none
                  else fanoutClient x (countOcc id rest)
                    { c with topics := removeFirst x c.topics } from rfl]
            rw [if_neg hemp]
            rfl
          · rw [if_neg hid]
            have hco : countOcc id (n :: rest) = countOcc id rest := by
              have : ¬ n = id := fun hh => hid hh.symm
              simp [countOcc, this]
            rw [hco]

/-! ### Log helpers -/

theorem countP_trySend (net : Net) (r p : String) (f : NetEvent → Bool)
    (hf : ∀ d, f (NetEvent.sent r p d) = false) :
    ((trySend net r p).2).log.countP f = net.log.countP f := by
  show (net.log ++ [NetEvent.sent r p (net.oracle.headD true)]).countP f = _
  rw [List.countP_append]
  simp [List.countP_cons, hf]

theorem mem_trySend_log (net : Net) (r p : String) (e : NetEvent)
    (he : e ∈ ((trySend net r p).2).log) :
    e ∈ net.log ∨ ∃ d, e = NetEvent.sent r p d := by
  have he2 : e ∈ net.log ++ [NetEvent.sent r p (net.oracle.headD true)] := he
  rcases List.mem_append.mp he2 with h1 | h2
  · exact Or.inl h1
  · exact Or.inr ⟨_, List.mem_singleton.mp h2⟩

/-! ### Claim theorems -/

/-- C1, counterexample: the timeout sweep IS run for pings.  With an in-flight
task dispatched at time 0 and a `@@PING` arriving at time 61 (past the 60s
default timeout), processing the ping drops the task and garbage-collects the
requesting client — the broker state is not unchanged. -/
theorem C1_counterexample :
    (getOk (runMsgs broker0 emptyNet pingTrace1)).1.tasks.length = 1 ∧
    (mapGet (getOk (runMsgs broker0 emptyNet pingTrace1)).1.clients "c1").isSome = true ∧
    (getOk (runMsgs broker0 emptyNet pingTrace2)).1.tasks.length = 0 ∧
    mapGet (getOk (runMsgs broker0 emptyNet pingTrace2)).1.clients "c1" = none :=
  ⟨rfl, rfl, rfl, rfl⟩

/-- C1 (amended): processing an `@@PING` leaves the broker state equal to
`remove_timeout_tasks` of the prior state — the ping handler itself changes no
broker state, but the timeout sweep IS run after pings as after every message;
the only outputs are the optional `@@REGISTER` hint and the `@@PONG` reply, and
no debug line is printed for pings. -/
theorem C1_ping_runs_sweep (b : Broker) (net : Net) (m : Msg) (now : Nat)
    (h : m.topic = "@@PING") :
    ∃ net2, stepMsg b net m now = Except.ok (remove_timeout_tasks b now, net2) ∧
      net2.log.countP isDebugEvent = net.log.countP isDebugEvent ∧
      ∀ e ∈ net2.log, e ∈ net.log ∨
        (∃ d, e = NetEvent.sent m.identity "@@REGISTER" d) ∨
        (∃ d, e = NetEvent.sent m.identity "@@PONG" d) := by
  have hdbg : ∀ (r p : String) (d : Bool), isDebugEvent (NetEvent.sent r p d) = false :=
    fun _ _ _ => rfl
  by_cases hh : (m.identity.startsWith "worker" && (mapGet b.clients m.identity).isNone) = true
  · refine ⟨(trySend ((trySend net m.identity "@@REGISTER").2) m.identity "@@PONG").2,
      ?_, ?_, ?_⟩
    · simp [stepMsg, h, hh]
    · rw [countP_trySend _ _ _ _ (hdbg m.identity "@@PONG"),
          countP_trySend _ _ _ _ (hdbg m.identity "@@REGISTER")]
    · intro e he
      rcases mem_trySend_log _ _ _ e he with h1 | h2
      · rcases mem_trySend_log _ _ _ e h1 with g1 | g2
        · exact Or.inl g1
        · exact Or.inr (Or.inl g2)
      · exact Or.inr (Or.inr h2)
  · refine ⟨(trySend net m.identity "@@PONG").2, ?_, ?_, ?_⟩
    · simp [stepMsg, h, hh]
    · rw [countP_trySend _ _ _ _ (hdbg m.identity "@@PONG")]
    · intro e he
      rcases mem_trySend_log _ _ _ e he with h1 | h2
      · exact Or.inl h1
      · exact Or.inr (Or.inr h2)

/-- C1, witness: the amended theorem applied to the late ping of the trace. -/
theorem C1_ping_runs_sweep_witness :
    pingEv.msg.topic = "@@PING" ∧
    (∃ net2, stepMsg broker0 emptyNet pingEv.msg pingEv.now
        = Except.ok (remove_timeout_tasks broker0 pingEv.now, net2) ∧
      net2.log.countP isDebugEvent = emptyNet.log.countP isDebugEvent ∧
      ∀ e ∈ net2.log, e ∈ emptyNet.log ∨
        (∃ d, e = NetEvent.sent pingEv.msg.identity "@@REGISTER" d) ∨
        (∃ d, e = NetEvent.sent pingEv.msg.identity "@@PONG" d)) :=
  ⟨rfl, C1_ping_runs_sweep broker0 emptyNet pingEv.msg pingEv.now rfl⟩

/-- C2, counterexample: after a failed send evicts the last worker of topic `T`
(which has no subscribed clients), the reachable between-iterations state keeps
a row for `T` whose worker list and client list are both empty. -/
theorem C2_counterexample :
    (mapGet (getOk (runMsgs broker0 failFirstNet evictTrace)).1.topics "T").map
      (fun t => (t.workers, t.clients)) = some ([], []) := rfl

/-- C2 (amended): the no-empty-empty-topic property holds only for the topic a
fan-out ran on: after `send_response` on `tname`, if the row for `tname` is
still present then its worker list is nonempty and its client list was cleared;
worker eviction, by contrast, can leave an empty-empty topic row behind. -/
theorem C2_responder_no_empty_topic (b : Broker) (net : Net) (tname payload : String)
    (b2 : Broker) (net2 : Net) (hnd : keysNodup b.topics)
    (h : send_response b net tname payload = Except.ok (b2, net2)) :
    ∀ t2, mapGet b2.topics tname = some t2 → t2.workers ≠ [] ∧ t2.clients = [] := by
  intro t2 ht2
  cases h0 : mapGet b.topics tname with
  | none =>
    simp only [send_response, h0, Except.ok.injEq, Prod.mk.injEq] at h
    rw [← h.1, h0] at ht2
    exact Option.noConfusion ht2
  | some topic =>
    cases hrc : respondClients topic.name payload topic.clients b.clients net with
    | error e =>
      simp only [send_response, h0, hrc] at h
      exact absurd h (by simp)
    | ok pr =>
      obtain ⟨clients2, net3⟩ := pr
      by_cases hw : topic.workers.isEmpty = true
      · simp only [send_response, h0, hrc, hw, if_true, Except.ok.injEq,
          Prod.mk.injEq] at h
        rw [← h.1] at ht2
        have ht3 : mapGet (mapRemove b.topics tname) tname = some t2 := ht2
        rw [mapGet_mapRemove_self b.topics tname hnd] at ht3
        exact Option.noConfusion ht3
      · simp only [send_response, h0, hrc, hw, if_false, Except.ok.injEq,
          Prod.mk.injEq] at h
        rw [← h.1] at ht2
        have ht3 : mapGet (mapSet b.topics tname { topic with clients := [] }) tname
            = some t2 := ht2
        rw [mapGet_mapSet_self, h0, Option.map_some', Option.some_inj] at ht3
        rw [← ht3]
        refine ⟨?_, rfl⟩
        show topic.workers ≠ []
        intro hnil
        rw [hnil] at hw
        exact hw rfl

/-- C2, witness: the responder theorem applied to a fan-out on a topic that
keeps a worker. -/
theorem C2_responder_no_empty_topic_witness :
    keysNodup c2Broker.topics ∧
    c2TopicAfter.workers ≠ [] ∧ c2TopicAfter.clients = [] :=
  ⟨by decide,
   C2_responder_no_empty_topic c2Broker emptyNet "R" "pay" c2After.1 c2After.2
     (by decide) rfl c2TopicAfter rfl⟩

theorem mem_of_getElem_opt (l : List String) (i : Nat) (a : String)
    (h : l[i]? = some a) : a ∈ l := by
  induction l generalizing i with
  | nil => simp at h
  | cons x xs ih =>
    cases i with
    | zero =>
      simp at h
      rw [h]
      exact List.mem_cons_self _ _
    | succ j =>
      rw [List.getElem?_cons_succ] at h
      exact List.mem_cons_of_mem _ (ih j h)

/-- C3, counterexample: client `c1` is subscribed to `R` (twice, after two
requests with the same response topic) at the moment of the reply, yet the
fan-out sends it the payload twice, not exactly once. -/
theorem C3_counterexample :
    countSent (getOk (runMsgs broker0 emptyNet (fanoutTrace.take 3))).2.log "c1" "ans" = 0 ∧
    (mapGet (getOk (runMsgs broker0 emptyNet (fanoutTrace.take 3))).1.clients "c1").map
      Client.topics = some ["R", "R"] ∧
    countSent (getOk (runMsgs broker0 emptyNet fanoutTrace)).2.log "c1" "ans" = 2 :=
  ⟨rfl, rfl, rfl⟩

/-- C3 (amended): on a reply on topic `rtopic`, each identity is sent the
payload once per occurrence in the topic's client list (so a client whose
subscription was registered twice receives it twice), and each send erases one
matching subscription, the row being deleted once its list empties.  The count
hypothesis is the client/topic mirror invariant of reachable states. -/
theorem C3_fanout_per_registration (b : Broker) (net : Net) (rtopic payload : String)
    (topic : Topic)
    (hnd : keysNodup b.clients) (hnm : clientKeysMatch b.clients)
    (htop : mapGet b.topics rtopic = some topic)
    (hcount : ∀ id c, mapGet b.clients id = some c →
      countOcc id topic.clients ≤ countOcc topic.name c.topics) :
    ∃ b2 net2, send_response b net rtopic payload = Except.ok (b2, net2) ∧
      (∀ id, countSent net2.log id payload
        = countSent net.log id payload + countOcc id topic.clients) ∧
      (∀ id, mapGet b2.clients id
        = (mapGet b.clients id).bind
            (fanoutClient topic.name (countOcc id topic.clients))) := by
  obtain ⟨m2, net2, hfold, hsent, hget⟩ :=
    respondFold_spec topic.clients topic.name payload b.clients net hnd hnm hcount
  have hrc : respondClients topic.name payload topic.clients b.clients net
      = Except.ok (m2, net2) := hfold
  by_cases hw : topic.workers.isEmpty = true
  · refine ⟨{ b with clients := m2, topics := mapRemove b.topics rtopic, tasks := b.tasks.filter (fun task => decide (task.response_topic ≠ rtopic)) }, net2, ?_, hsent, ?_⟩
    · simp [send_response, htop, hrc, hw]
    · intro id
      exact hget id
  · refine ⟨{ b with clients := m2, topics := mapSet b.topics rtopic ({ topic with clients := [] }), tasks := b.tasks.filter (fun task => decide (task.response_topic ≠ rtopic)) }, net2, ?_, hsent, ?_⟩
    · simp [send_response, htop, hrc, hw]
    · intro id
      exact hget id

/-- C3, witness: the fan-out theorem applied to a topic with one subscriber. -/
theorem C3_fanout_witness :
    keysNodup c3Broker.clients ∧ clientKeysMatch c3Broker.clients ∧
    mapGet c3Broker.topics "R" = some c3Topic ∧
    (∃ b2 net2, send_response c3Broker emptyNet "R" "pay" = Except.ok (b2, net2) ∧
      (∀ id, countSent net2.log id "pay"
        = countSent emptyNet.log id "pay" + countOcc id c3Topic.clients) ∧
      (∀ id, mapGet b2.clients id
        = (mapGet c3Broker.clients id).bind
            (fanoutClient c3Topic.name (countOcc id c3Topic.clients)))) :=
  ⟨by decide, by decide, rfl,
   C3_fanout_per_registration c3Broker emptyNet "R" "pay" c3Topic (by decide) (by decide)
     rfl (by
       intro id c hc
       have hc2 : (if "c" = id then some c3Client else none) = some c := hc
       by_cases hid : "c" = id
       · rw [if_pos hid] at hc2
         rw [Option.some_inj] at hc2
         subst hc2
         subst hid
         decide
       · rw [if_neg hid] at hc2
         exact Option.noConfusion hc2)⟩

/-- C4, counterexample: in the reachable state after the last worker of `T` is
evicted, topic `T` has cursor 1 and an empty worker list, so the cursor is not
in `[0, len(workers)]`. -/
theorem C4_counterexample :
    (mapGet (getOk (runMsgs broker0 failFirstNet evictTrace)).1.topics "T").map
      (fun t => decide (t.next_worker_index ≤ t.workers.length)) = some false := rfl

/-- C4 (amended): worker selection returns only members of the worker list and
leaves the cursor in `[0, max 1 len(workers)]` — selection on an empty worker
list sets the cursor to 1, and eviction shrinks worker lists without adjusting
the cursor, so `[0, len(workers)]` is not an invariant; selection nevertheless
stays safe (out-of-range reads return no worker). -/
theorem C4_cursor_bound (b : Broker) (tname : String) (t : Topic)
    (h : mapGet b.topics tname = some t) :
    (∀ w, (get_next_worker_name b tname).1 = some w → w ∈ t.workers) ∧
    (∀ t2, mapGet (get_next_worker_name b tname).2.topics tname = some t2 →
      t2.workers = t.workers ∧ t2.next_worker_index ≤ max 1 t.workers.length) := by
  cases h2 : t.workers[t.next_worker_index]? with
  | some w0 =>
    constructor
    · intro w hw
      have hsel1 : (get_next_worker_name b tname).1 = some w0 := by
        simp [get_next_worker_name, h, h2]
      rw [hsel1, Option.some_inj] at hw
      rw [← hw]
      exact mem_of_getElem_opt _ _ _ h2
    · intro t2 ht2
      have hlt : t.next_worker_index < t.workers.length := by
        by_contra hge
        rw [List.getElem?_eq_none (Nat.le_of_not_lt hge)] at h2
        exact Option.noConfusion h2
      have hsel : (get_next_worker_name b tname).2.topics
          = mapSet b.topics tname
              { t with next_worker_index := t.next_worker_index + 1 } := by
        simp [get_next_worker_name, h, h2]
      rw [hsel, mapGet_mapSet_self, h, Option.map_some', Option.some_inj] at ht2
      rw [← ht2]
      refine ⟨rfl, ?_⟩
      show t.next_worker_index + 1 ≤ max 1 t.workers.length
      have hmax := le_max_right 1 t.workers.length
      omega
  | none =>
    constructor
    · intro w hw
      have hsel1 : (get_next_worker_name b tname).1 = t.workers[0]? := by
        simp [get_next_worker_name, h, h2]
      rw [hsel1] at hw
      exact mem_of_getElem_opt _ _ _ hw
    · intro t2 ht2
      have hsel : (get_next_worker_name b tname).2.topics
          = mapSet b.topics tname { t with next_worker_index := 1 } := by
        simp [get_next_worker_name, h, h2]
      rw [hsel, mapGet_mapSet_self, h, Option.map_some', Option.some_inj] at ht2
      rw [← ht2]
      exact ⟨rfl, le_max_left 1 _⟩

/-- C4, witness: the selection-safety theorem applied to a one-worker topic. -/
theorem C4_cursor_bound_witness :
    mapGet c7Broker.topics "T" = some tW ∧
    ((∀ w, (get_next_worker_name c7Broker "T").1 = some w → w ∈ tW.workers) ∧
     (∀ t2, mapGet (get_next_worker_name c7Broker "T").2.topics "T" = some t2 →
       t2.workers = tW.workers ∧ t2.next_worker_index ≤ max 1 tW.workers.length)) :=
  ⟨rfl, C4_cursor_bound c7Broker "T" tW rfl⟩

theorem add_client_frame (b : Broker) (w : Bool) (i r : String) :
    (add_client b w i r).tasks = b.tasks ∧
    (add_client b w i r).tasks_to_retry = b.tasks_to_retry ∧
    (add_client b w i r).timeout_as_secs = b.timeout_as_secs :=
  ⟨rfl, rfl, rfl⟩

/-- Drain lemma: a completed fold of the dispatcher over a queue keeps every
pre-existing task, and lands every queued task (restamped to `now`) either in
the in-flight table with `sent = true` or back in the retry queue. -/
theorem retryFold_spec (queue : List BTask) (now : Nat) :
    ∀ (b : Broker) (net : Net) (b2 : Broker) (net2 : Net),
    queue.foldlM (retryStep now) (b, net) = Except.ok (b2, net2) →
    b2.timeout_as_secs = b.timeout_as_secs ∧
    (∀ t ∈ b.tasks, t ∈ b2.tasks) ∧
    (∀ t ∈ b.tasks_to_retry, t ∈ b2.tasks_to_retry) ∧
    (∀ t ∈ queue, ∃ t2, t2.worker_topic = t.worker_topic ∧
      t2.response_topic = t.response_topic ∧ t2.payload = t.payload ∧
      t2.date = now ∧
      ((t2 ∈ b2.tasks ∧ t2.sent = true) ∨ t2 ∈ b2.tasks_to_retry)) := by
  induction queue with
  | nil =>
    intro b net b2 net2 h
    rw [List.foldlM_nil] at h
    rw [show (pure (b, net) : Except String (Broker × Net)) = Except.ok (b, net) from rfl,
      Except.ok.injEq, Prod.mk.injEq] at h
    obtain ⟨hb, hn⟩ := h
    subst hb
    exact ⟨rfl, fun t ht => ht, fun t ht => ht, fun t ht => absurd ht (by simp)⟩
  | cons t rest ih =>
    intro b net b2 net2 h
    rw [List.foldlM_cons] at h
    rcases dispatch_outcome b net t now with ⟨e, he⟩ |
      ⟨bm, netm, t2, hok, g1, g2, g3, g4, g5, gcase⟩
    · rw [show retryStep now (b, net) t = send_task_and_retry b net t now from rfl,
        he, except_bind_error] at h
      exact absurd h (by simp)
    · rw [show retryStep now (b, net) t = send_task_and_retry b net t now from rfl,
        hok, except_bind_ok] at h
      obtain ⟨k1, k2, k3, k4⟩ := ih bm netm b2 net2 h
      have hmono_tasks : ∀ u ∈ b.tasks, u ∈ bm.tasks := by
        intro u hu
        rcases gcase with ⟨_, c2, _⟩ | ⟨_, c2, _⟩
        · rw [c2]
          exact List.mem_append_left _ hu
        · rw [c2]
          exact hu
      have hmono_retry : ∀ u ∈ b.tasks_to_retry, u ∈ bm.tasks_to_retry := by
        intro u hu
        rcases gcase with ⟨_, _, c3⟩ | ⟨c1, _, _⟩
        · rw [c3]
          exact hu
        · rw [c1]
          exact List.mem_append_left _ hu
      refine ⟨k1.trans g5, fun u hu => k2 u (hmono_tasks u hu),
        fun u hu => k3 u (hmono_retry u hu), ?_⟩
      intro u hu
      rcases List.mem_cons.mp hu with hut | hmem
      · subst hut
        refine ⟨t2, g1, g2, g3, g4, ?_⟩
        rcases gcase with ⟨c1, c2, _⟩ | ⟨c1, _, _⟩
        · left
          refine ⟨k2 t2 ?_, c1⟩
          rw [c2]
          exact List.mem_append_right _ (List.mem_cons_self _ _)
        · right
          apply k3 t2
          rw [c1]
          exact List.mem_append_right _ (List.mem_cons_self _ _)
      · exact k4 u hmem

/-- C5, counterexample: from a broker state whose topic `T` lists a worker with
no client row, a failed send makes the dispatch loop abort with the
`self.clients[worker_name]` panic — it ends neither with a successful send
nor with the task parked in the retry queue. -/
theorem C5_counterexample :
    send_task_and_retry ghostBroker failFirstNet (BTask.new "T" "R" "p" 0) 0 =
      Except.error "remove_worker: clients index panic" := rfl

/-- C5 (amended): for every broker state and task the dispatch loop terminates,
ending in one of three ways: a panic during eviction, a successful send (the
task, restamped, is appended to the in-flight table with `sent = true`), or no
worker available (the task is appended to the retry queue and the diagnostic
line is emitted). -/
theorem C5_dispatch_terminates (b : Broker) (net : Net) (task : BTask) (now : Nat) :
    (∃ e, send_task_and_retry b net task now = Except.error e) ∨
    (∃ b2 net2 t2, send_task_and_retry b net task now = Except.ok (b2, net2) ∧
      t2.worker_topic = task.worker_topic ∧ t2.response_topic = task.response_topic ∧
      t2.payload = task.payload ∧
      ((t2.sent = true ∧ b2.tasks = b.tasks ++ [t2] ∧
        b2.tasks_to_retry = b.tasks_to_retry) ∨
       (b2.tasks_to_retry = b.tasks_to_retry ++ [t2] ∧ b2.tasks = b.tasks ∧
        NetEvent.diag t2.worker_topic ∈ net2.log))) := by
  rcases dispatch_outcome b net task now with ⟨e, he⟩ |
    ⟨b2, net2, t2, hok, g1, g2, g3, _, _, gcase⟩
  · exact Or.inl ⟨e, he⟩
  · exact Or.inr ⟨b2, net2, t2, hok, g1, g2, g3, gcase⟩

/-- C6: worker selection on a present topic returns `W[c]` and advances the
cursor to `c+1` when `c < len(W)`; otherwise, when `W` is nonempty, returns
`W[0]` and sets the cursor to 1; and returns no worker when `W` is empty. -/
theorem C6_selection (b : Broker) (tname : String) (t : Topic)
    (h : mapGet b.topics tname = some t) :
    (t.next_worker_index < t.workers.length →
      (get_next_worker_name b tname).1 = t.workers[t.next_worker_index]? ∧
      mapGet (get_next_worker_name b tname).2.topics tname
        = some { t with next_worker_index := t.next_worker_index + 1 }) ∧
    (t.workers.length ≤ t.next_worker_index → t.workers ≠ [] →
      (get_next_worker_name b tname).1 = t.workers[0]? ∧
      mapGet (get_next_worker_name b tname).2.topics tname
        = some { t with next_worker_index := 1 }) ∧
    (t.workers = [] → (get_next_worker_name b tname).1 = none) := by
  refine ⟨?_, ?_, ?_⟩
  · intro hlt
    obtain ⟨w0, hsome⟩ : ∃ w0, t.workers[t.next_worker_index]? = some w0 := by
      rw [List.getElem?_eq_getElem hlt]
      exact ⟨_, rfl⟩
    constructor
    · rw [hsome]
      simp [get_next_worker_name, h, hsome]
    · have hsel : (get_next_worker_name b tname).2.topics
          = mapSet b.topics tname
              { t with next_worker_index := t.next_worker_index + 1 } := by
        simp [get_next_worker_name, h, hsome]
      rw [hsel, mapGet_mapSet_self, h]
      rfl
  · intro hge hne
    have hnone : t.workers[t.next_worker_index]? = none := List.getElem?_eq_none hge
    constructor
    · simp [get_next_worker_name, h, hnone]
    · have hsel : (get_next_worker_name b tname).2.topics
          = mapSet b.topics tname { t with next_worker_index := 1 } := by
        simp [get_next_worker_name, h, hnone]
      rw [hsel, mapGet_mapSet_self, h]
      rfl
  · intro hempty
    have hnone : t.workers[t.next_worker_index]? = none := by simp [hempty]
    simp [get_next_worker_name, h, hnone, hempty]

/-- C6, witness: selection on the one-worker topic of `c7Broker`. -/
theorem C6_selection_witness :
    mapGet c7Broker.topics "T" = some tW ∧
    ((tW.next_worker_index < tW.workers.length →
      (get_next_worker_name c7Broker "T").1 = tW.workers[tW.next_worker_index]? ∧
      mapGet (get_next_worker_name c7Broker "T").2.topics "T"
        = some { tW with next_worker_index := tW.next_worker_index + 1 }) ∧
    (tW.workers.length ≤ tW.next_worker_index → tW.workers ≠ [] →
      (get_next_worker_name c7Broker "T").1 = tW.workers[0]? ∧
      mapGet (get_next_worker_name c7Broker "T").2.topics "T"
        = some { tW with next_worker_index := 1 }) ∧
    (tW.workers = [] → (get_next_worker_name c7Broker "T").1 = none)) :=
  ⟨rfl, C6_selection c7Broker "T" tW rfl⟩

/-- C7: processing an `@@REGISTER` message re-attempts every task parked in the
retry queue through the dispatcher (each is restamped to the current time), and
when the iteration completes without a panic every such task is afterwards
either in the in-flight table with `sent = true` or back in the retry queue
(assuming a positive configured timeout, else the sweep could drop it again). -/
theorem C7_register_drains_retry (b : Broker) (net : Net) (m : Msg) (now : Nat)
    (s2 : Broker) (net2 : Net)
    (hreg : m.topic = "@@REGISTER") (hto : 0 < b.timeout_as_secs)
    (h : stepMsg b net m now = Except.ok (s2, net2)) :
    ∀ t ∈ b.tasks_to_retry, ∃ t2,
      t2.worker_topic = t.worker_topic ∧ t2.response_topic = t.response_topic ∧
      t2.payload = t.payload ∧ t2.date = now ∧
      ((t2 ∈ s2.tasks ∧ t2.sent = true) ∨ t2 ∈ s2.tasks_to_retry) := by
  intro t ht
  simp only [stepMsg, hreg] at h
  rw [if_true] at h
  cases hrt : retry_tasks (add_client b true m.identity m.response_topic) net now with
  | error e =>
    rw [hrt] at h
    exact absurd h (by simp)
  | ok pr =>
    obtain ⟨bd, netd⟩ := pr
    rw [hrt] at h
    rw [if_neg (by decide : ¬ ("@@REGISTER" = "@@PING"))] at h
    rw [Except.ok.injEq, Prod.mk.injEq] at h
    obtain ⟨hs2, hnet⟩ := h
    have hfold : (add_client b true m.identity m.response_topic).tasks_to_retry.foldlM
        (retryStep now)
        ({ add_client b true m.identity m.response_topic with tasks_to_retry := [] }, net)
        = Except.ok (bd, netd) := hrt
    obtain ⟨k1, k2, k3, k4⟩ := retryFold_spec _ now _ net bd netd hfold
    have ht2 : t ∈ (add_client b true m.identity m.response_topic).tasks_to_retry := ht
    obtain ⟨t2, g1, g2, g3, g4, gcase⟩ := k4 t ht2
    refine ⟨t2, g1, g2, g3, g4, ?_⟩
    have hbd : bd.timeout_as_secs = b.timeout_as_secs := k1.trans rfl
    rcases gcase with ⟨hmem, hsent⟩ | hmem
    · left
      refine ⟨?_, hsent⟩
      rw [← hs2, sweep_tasks_eq_filter]
      refine List.mem_filter.mpr ⟨hmem, ?_⟩
      rw [g4, hbd]
      simp [Nat.sub_self, hto]
    · right
      rw [← hs2, (sweep_frame bd now).1]
      exact hmem

/-- C7, witness: a register from the only worker drains the one parked task. -/
theorem C7_register_drains_retry_witness :
    c7Msg.topic = "@@REGISTER" ∧ 0 < c7Broker.timeout_as_secs ∧
    ∀ t ∈ c7Broker.tasks_to_retry, ∃ t2,
      t2.worker_topic = t.worker_topic ∧ t2.response_topic = t.response_topic ∧
      t2.payload = t.payload ∧ t2.date = 5 ∧
      ((t2 ∈ c7Res.1.tasks ∧ t2.sent = true) ∨ t2 ∈ c7Res.1.tasks_to_retry) :=
  ⟨rfl, by decide,
   C7_register_drains_retry c7Broker emptyNet c7Msg 5 c7Res.1 c7Res.2 rfl (by decide) rfl⟩

/-- C8, counterexample: client `c1` subscribed twice to `R`; after the sweep
drops the single expired task on `R`, `R` is still in `c1`'s subscription list
(only the first occurrence was removed), so the sweep does not remove the
dropped topic from the lists of every client subscribing to it. -/
theorem C8_counterexample :
    (remove_timeout_tasks (getOk (runMsgs broker0 emptyNet dupSweepTrace)).1 61).tasks = [] ∧
    (mapGet (remove_timeout_tasks
        (getOk (runMsgs broker0 emptyNet dupSweepTrace)).1 61).clients "c1").map
      Client.topics = some ["R"] :=
  ⟨rfl, rfl⟩

/-- C8 (amended): the sweep keeps exactly the in-flight tasks with elapsed time
strictly below the timeout; for a dropped task it removes the response-topic
row, erases ONE (the first) occurrence of that topic from each client's
subscription list — duplicate subscriptions can survive a single drop — and
deletes every client whose subscription list is then empty. -/
theorem C8_sweep_behavior :
    (∀ (b : Broker) (now : Nat),
      (remove_timeout_tasks b now).tasks
        = b.tasks.filter (fun t => decide (now - t.date < b.timeout_as_secs))) ∧
    (∀ (b : Broker) (now : Nat) (pre post : List BTask) (t : BTask),
      keysNodup b.topics → keysNodup b.clients → clientKeysMatch b.clients →
      b.tasks = pre ++ t :: post →
      (∀ u ∈ pre, now - u.date < b.timeout_as_secs) →
      (∀ u ∈ post, now - u.date < b.timeout_as_secs) →
      ¬ (now - t.date < b.timeout_as_secs) →
      (remove_timeout_tasks b now).tasks = pre ++ post ∧
      mapGet (remove_timeout_tasks b now).topics t.response_topic = none ∧
      (∀ u, u ≠ t.response_topic →
        mapGet (remove_timeout_tasks b now).topics u = mapGet b.topics u) ∧
      (∀ id, mapGet (remove_timeout_tasks b now).clients id
        = (mapGet b.clients id).bind (fun c =>
            if (removeFirst t.response_topic c.topics).isEmpty then none
            else some { c with topics := removeFirst t.response_topic c.topics }))) := by
  constructor
  · exact sweep_tasks_eq_filter
  · intro b now pre post t hndt hndc hnm hsplit hpre hpost ht
    have heq := sweep_single_drop b now pre post t hsplit hpre hpost ht
    rw [heq]
    refine ⟨rfl, ?_, ?_, ?_⟩
    · show mapGet (sweepDrop b t.response_topic).topics t.response_topic = none
      rw [sweepDrop_topics b _ _ hndt, if_pos rfl]
    · intro u hu
      show mapGet (sweepDrop b t.response_topic).topics u = _
      rw [sweepDrop_topics b _ _ hndt, if_neg hu]
    · intro id
      show mapGet (sweepDrop b t.response_topic).clients id = _
      exact sweepDrop_clients b t.response_topic hndc hnm id

/-- C8, witness: the sweep theorem applied to the duplicate-subscription state
with its single (expired) in-flight task. -/
theorem C8_sweep_behavior_witness :
    keysNodup c8State.topics ∧ keysNodup c8State.clients ∧
    clientKeysMatch c8State.clients ∧
    c8State.tasks = [] ++ c8Task :: [] ∧
    ¬ (61 - c8Task.date < c8State.timeout_as_secs) ∧
    ((remove_timeout_tasks c8State 61).tasks = [] ++ [] ∧
     mapGet (remove_timeout_tasks c8State 61).topics c8Task.response_topic = none ∧
     (∀ u, u ≠ c8Task.response_topic →
       mapGet (remove_timeout_tasks c8State 61).topics u = mapGet c8State.topics u) ∧
     (∀ id, mapGet (remove_timeout_tasks c8State 61).clients id
       = (mapGet c8State.clients id).bind (fun c =>
           if (removeFirst c8Task.response_topic c.topics).isEmpty then none
           else some { c with topics := removeFirst c8Task.response_topic c.topics }))) :=
  ⟨by decide, by decide, by decide, by decide, by decide,
   C8_sweep_behavior.2 c8State 61 [] [] c8Task (by decide) (by decide) (by decide)
     (by decide) (by simp) (by simp) (by decide)⟩

/-- C9: a reachable panic.  `workerW` registers as a worker on `T` and also
appears as a plain client on `R` (via a request whose worker-topic has no
workers); when a later failed send to `workerW` evicts it,
`remove_worker_from_topics` reaches topic `R`, where `workerW` is not in the
worker list, and the `position(...).unwrap()` aborts the process. -/
theorem C9_eviction_panics :
    runMsgs broker0 failFirstNet panicTrace =
      Except.error "remove_worker_from_topics: position unwrap on None" := rfl

theorem filter_length_mapSet {α : Type} (m : List (String × α)) (k : String) (v v2 : α)
    (p : String × α → Bool) (h : mapGet m k = some v) (hp : p (k, v2) = p (k, v)) :
    ((mapSet m k v2).filter p).length = (m.filter p).length := by
  induction m with
  | nil => simp [mapGet] at h
  | cons q rest ih =>
    obtain ⟨k1, v1⟩ := q
    by_cases hk : k1 = k
    · subst hk
      rw [mapGet, if_pos rfl, Option.some_inj] at h
      subst h
      rw [mapSet, if_pos rfl]
      rw [List.filter_cons, List.filter_cons, hp]
      cases hpv : p (k1, v1) <;> simp [hpv]
    · rw [mapGet, if_neg hk] at h
      rw [mapSet, if_neg hk]
      rw [List.filter_cons, List.filter_cons]
      cases hpv : p (k1, v1) <;> simp [hpv, ih h]

/-- C10: the worker flag of a client row is fixed at creation and not changed
by re-registration: `add_client` on an existing identity only appends the
subscription, keeping the stored `is_worker`; with the worker flag set it still
appends the identity to the topic's worker list; and both halves of the debug
line's partition are unchanged, so a false-flagged identity that registers as a
worker keeps being counted among clients. -/
theorem C10_worker_flag (b : Broker) (id tname : String) (w : Bool) (c : Client)
    (h : mapGet b.clients id = some c) :
    mapGet (add_client b w id tname).clients id
      = some { c with topics := c.topics ++ [tname] } ∧
    (w = true → ∃ t2, mapGet (add_client b w id tname).topics tname = some t2 ∧
      id ∈ t2.workers) ∧
    workerCount (add_client b w id tname) = workerCount b ∧
    clientCount (add_client b w id tname) = clientCount b := by
  have hcl : (add_client b w id tname).clients
      = mapSet b.clients id ({ c with topics := c.topics ++ [tname] }) := by
    simp [add_client, h]
  refine ⟨?_, ?_, ?_, ?_⟩
  · rw [hcl, mapGet_mapSet_self, h]
    rfl
  · intro hw
    subst hw
    cases hm : mapGet b.topics tname with
    | some tp =>
      have htp : (add_client b true id tname).topics
          = mapSet b.topics tname ({ tp with workers := tp.workers ++ [id] }) := by
        simp [add_client, hm]
      refine ⟨{ tp with workers := tp.workers ++ [id] }, ?_, ?_⟩
      · rw [htp, mapGet_mapSet_self, hm]
        rfl
      · simp
    | none =>
      have htp : (add_client b true id tname).topics
          = b.topics ++ [(tname, { Topic.new tname with workers := [id] })] := by
        simp [add_client, hm]
      refine ⟨{ Topic.new tname with workers := [id] }, ?_, ?_⟩
      · rw [htp, mapGet_append_right _ _ _ hm]
        rw [mapGet, if_pos rfl]
      · simp [Topic.new]
  · show ((add_client b w id tname).clients.filter (fun p => p.2.is_worker)).length
      = (b.clients.filter (fun p => p.2.is_worker)).length
    rw [hcl]
    exact filter_length_mapSet b.clients id c ({ c with topics := c.topics ++ [tname] })
      (fun p => p.2.is_worker) h rfl
  · show ((add_client b w id tname).clients.filter (fun p => !p.2.is_worker)).length
      = (b.clients.filter (fun p => !p.2.is_worker)).length
    rw [hcl]
    exact filter_length_mapSet b.clients id c ({ c with topics := c.topics ++ [tname] })
      (fun p => !p.2.is_worker) h rfl

/-- C10, witness: the flag theorem applied to the plain-client row `x` that
then registers as a worker on `T`. -/
theorem C10_worker_flag_witness :
    mapGet c10Broker.clients "x" = some c10Client ∧
    (mapGet (add_client c10Broker true "x" "T").clients "x"
        = some { c10Client with topics := c10Client.topics ++ ["T"] } ∧
      (true = true → ∃ t2, mapGet (add_client c10Broker true "x" "T").topics "T"
          = some t2 ∧ "x" ∈ t2.workers) ∧
      workerCount (add_client c10Broker true "x" "T") = workerCount c10Broker ∧
      clientCount (add_client c10Broker true "x" "T") = clientCount c10Broker) :=
  ⟨rfl, C10_worker_flag c10Broker "x" "T" true c10Client rfl⟩
